import Mathlib

/-!
Verification of the watch-mode coordinator (`src/watch/state.rs`).

The module is embedded shallowly:

* `WatchState` mirrors the Rust struct of the same name; the external progress
  tracker (`AppState`) is carried as a field, as the Rust code holds
  `&'a mut AppState`.
* Stateful effects are made explicit: every public operation is a function
  `WatchState → World → WatchState × World × Except Err α`.  The `World`
  records the stdout writes, an effect trace (pause-guard acquisition and
  release, rendezvous-channel resume sends, file resets, finished exercise
  runs, and one `frame` marker per render recording what that paint displays),
  plus a write-failure injection point to model I/O errors.
* Collaborators that live outside this module (exercise execution, the
  progress tracker, the solution-path query) are oracles collected in `Env`;
  each call site consults the oracle exactly once, mirroring the call in the
  source.  `Except` models the Rust `Result`; an `Err` value propagated by a
  `?` in the source is an `.error` value threaded out of the embedding while
  the mutations already applied to `self` are kept, exactly as with `&mut`.
-/

/-- Error values carried by the embedded `Result`. The variants distinguish the
failure sources relevant to the claims. -/
inductive Err where
  | io
  | stdinRead
  | chan
  | ext (code : Nat)
deriving DecidableEq

/-- The tri-state completion classification, from `enum DoneStatus`. -/
inductive DoneStatus where
  | DoneWithSolution (path : String)
  | DoneWithoutSolution
  | Pending
deriving DecidableEq

/-- Progress signal returned to the outer event loop, from `ExercisesProgress`
in `app_state.rs` (declared outside this module, used by it). -/
inductive ExercisesProgress where
  | CurrentPending
  | NewPending
  | AllDone
deriving DecidableEq

/-- The slice of an exercise visible to the watch coordinator: name, path and
hint are read during rendering and prompting, `done` by `check_all_exercises`. -/
structure Exercise where
  name : String
  path : String
  hint : String
  done : Bool
deriving DecidableEq

/-- The external progress tracker state consumed through the `AppState`
interface: the exercise list with done flags and the current index. -/
structure AppState where
  exercises : List Exercise
  current_exercise_ind : Nat
deriving DecidableEq

def AppState.currentExercise (a : AppState) : Exercise :=
  a.exercises.getD a.current_exercise_ind ⟨"", "", "", false⟩

def AppState.n_done (a : AppState) : Nat :=
  (a.exercises.filter (·.done)).length

/-- Modelled from the spec: the external progress tracker's set-pending-by-index
operation (`AppState::set_pending`, not under `src/`): it marks the exercise at
the given index as not done. -/
def AppState.set_pending (a : AppState) (ind : Nat) : AppState :=
  { a with exercises :=
      a.exercises.set ind { a.exercises.getD ind ⟨"", "", "", false⟩ with done := false } }

/-- Stdout events. Writes issued by external helpers (`clear_terminal`,
`progress_bar`, `solution_link_line`, `terminal_file_link`,
`render_final_message`, the output of `AppState::check_all_exercises`) appear
as single structured events; cosmetic style queueing appears as `style`. -/
inductive OutEvent where
  | checkingLine (name : String)
  | text (s : String)
  | style
  | clear
  | flush
  | outputBuf (o : List Nat)
  | hintText (h : String)
  | solutionLink (p : String)
  | progressBar (done total width : Nat)
  | fileLink (p : String)
  | checkAllOut
  | finalMsg
deriving DecidableEq

/-- Trace of the non-stdout effects of the coordinator: pause-guard
acquisition/release, rendezvous resume sends, file resets, finished runs, and
one `frame` marker per render recording the done status and exercise index the
paint displays. -/
inductive Effect where
  | guardPause
  | guardResume
  | unpauseSend
  | fileReset (ind : Nat)
  | ranExercise (ind : Nat) (success : Bool)
  | frame (ds : DoneStatus) (ind : Nat)
deriving DecidableEq

/-- A render frame is consistent with the most recent finished run when it
shows that run's exercise and a status that is `Pending` exactly when the run
failed; before any run only `Pending` may be shown. -/
def frameMatches (lastRun : Option (Nat × Bool)) (ds : DoneStatus) (ind : Nat) : Bool :=
  match lastRun with
  | none => decide (ds = DoneStatus.Pending)
  | some (i, success) =>
      decide (i = ind) && (decide (ds = DoneStatus.Pending) == !success)

/-- The observable world outside `WatchState`: the stdout stream (`written`,
with `wcount` write operations so far and `failAt` an injected failing write),
the effect trace, and two monitor fields folded over the trace: `lastRun` is
the most recent `ranExercise` effect and `framesOk` records whether every
`frame` so far matched it. -/
structure World where
  written : List OutEvent
  wcount : Nat
  failAt : Option Nat
  effects : List Effect
  lastRun : Option (Nat × Bool)
  framesOk : Bool
deriving DecidableEq

/-- One stdout write; fails if the failure injection point is reached. -/
def World.wr (w : World) (e : OutEvent) : Except Err World :=
  if w.failAt = some w.wcount then .error .io
  else .ok { w with written := w.written ++ [e], wcount := w.wcount + 1 }

/-- A sequence of stdout writes, stopping at the first failure. -/
def World.wrs (w : World) : List OutEvent → World × Except Err Unit
  | [] => (w, .ok ())
  | e :: rest =>
    match w.wr e with
    | .error er => (w, .error er)
    | .ok w' => w'.wrs rest

/-- Record a stdout write performed inside an external collaborator (its
failures are the collaborator's own and reported through its result). -/
def World.noteWritten (w : World) (e : OutEvent) : World :=
  { w with written := w.written ++ [e] }

/-- Append an effect to the trace, updating the monitor fields. -/
def World.effect (w : World) (e : Effect) : World :=
  match e with
  | .ranExercise i b =>
      { w with effects := w.effects ++ [e], lastRun := some (i, b) }
  | .frame ds i =>
      { w with effects := w.effects ++ [e],
               framesOk := w.framesOk && frameMatches w.lastRun ds i }
  | _ => { w with effects := w.effects ++ [e] }

/-- The watch coordinator state, from `struct WatchState`. The rendezvous
channel sender is represented by the `unpauseSend` effects it produces. -/
structure WatchState where
  app_state : AppState
  output : List Nat
  show_hint : Bool
  done_status : DoneStatus
  manual_run : Bool
  term_width : Nat
deriving DecidableEq

/-- Oracles for the collaborator calls made by this module, one field per call
site, plus the bytes standard input will deliver and whether the rendezvous
channel send fails. `runExercise` yields the captured output and the success
flag; `Except.error` models the collaborator returning `Err`. -/
structure Env where
  runExercise : AppState → Except Err (List Nat × Bool)
  currentSolutionPath : AppState → Except Err (Option String)
  setPendingErr : Option Err
  setCurrentIndErr : Option Err
  doneCurrentExercise : AppState → Except Err (ExercisesProgress × AppState)
  checkAllExercises : AppState → Except Err (Option Nat × AppState)
  resetCurrentExercise : AppState → Except Err AppState
  stdin : List Nat
  sendFails : Bool

instance {α : Type} [DecidableEq α] : DecidableEq (Except Err α) := fun a b =>
  match a, b with
  | .ok x, .ok y =>
      if h : x = y then .isTrue (by rw [h]) else .isFalse (by intro hc; cases hc; exact h rfl)
  | .error x, .error y =>
      if h : x = y then .isTrue (by rw [h]) else .isFalse (by intro hc; cases hc; exact h rfl)
  | .ok _, .error _ => .isFalse (by intro hc; cases hc)
  | .error _, .ok _ => .isFalse (by intro hc; cases hc)

/-- Result of one coordinator operation: the state and world after it (kept
even on error, as mutations through `&mut self` survive an early `?` return)
and the `Result` value. -/
abbrev OpRes (α : Type) := WatchState × World × Except Err α

/-- Sequence two fallible stdout phases, short-circuiting on error. -/
def andThen (r : World × Except Err Unit) (k : World → World × Except Err Unit) :
    World × Except Err Unit :=
  match r with
  | (w, .error e) => (w, .error e)
  | (w, .ok _) => k w

/-- From `WatchState::show_prompt`: the action prompt, with `next` only when
not pending, `run` only in manual-run mode, `hint` only when not shown. -/
def show_prompt (s : WatchState) (w : World) : World × Except Err Unit :=
  andThen (if s.done_status ≠ DoneStatus.Pending then
      w.wrs [.style, .text "n", .style, .text ":", .style, .text "next", .style, .text " / "]
    else (w, .ok ())) fun w =>
  andThen (if s.manual_run then
      w.wrs [.style, .text "r", .style, .text ":run / "]
    else (w, .ok ())) fun w =>
  andThen (if !s.show_hint then
      w.wrs [.style, .text "h", .style, .text ":hint / "]
    else (w, .ok ())) fun w =>
  w.wrs [.style, .text "l", .style, .text ":list / ",
         .style, .text "c", .style, .text ":check all / ",
         .style, .text "x", .style, .text ":reset / ",
         .style, .text "q", .style, .text ":quit ? "]

/-- From `WatchState::render`: a full deterministic paint of the screen from
the current state. The leading `frame` effect records what this paint
displays (done status and current exercise index). -/
def render (s : WatchState) (w : World) : World × Except Err Unit :=
  let w := w.effect (.frame s.done_status s.app_state.current_exercise_ind)
  andThen (w.wrs [.text "\n", .clear, .outputBuf s.output]) fun w =>
  andThen (if s.show_hint then
      w.wrs [.style, .text "Hint", .style, .text "\n",
             .hintText s.app_state.currentExercise.hint, .text "\n\n"]
    else (w, .ok ())) fun w =>
  andThen (if s.done_status ≠ DoneStatus.Pending then
      andThen (w.wrs [.style, .text "Exercise done", .style, .text "\n"]) fun w =>
      andThen (match s.done_status with
        | .DoneWithSolution p => w.wrs [.solutionLink p]
        | _ => (w, .ok ())) fun w =>
      w.wrs [.text "When done experimenting, enter n to move on to the next exercise\n\n"]
    else (w, .ok ())) fun w =>
  andThen (w.wrs [.progressBar s.app_state.n_done s.app_state.exercises.length s.term_width]) fun w =>
  andThen (w.wrs [.text "\nCurrent exercise: ",
                  .fileLink s.app_state.currentExercise.path, .text "\n\n"]) fun w =>
  show_prompt s w

/-- From lines 91-96: the status a successful run transitions to, depending on
whether a reference solution path is reported. -/
def doneStatusFor (sp : Option String) : DoneStatus :=
  match sp with
  | some p => .DoneWithSolution p
  | none => .DoneWithoutSolution

/-- Body of `WatchState::run_current_exercise` (inside the pause guard):
clear the hint flag, write the status line, run the exercise capturing output,
transition `done_status` (and mark pending in the tracker on failure), then
render. -/
def run_current_exercise_body (env : Env) (s : WatchState) (w : World) : OpRes Unit :=
  let s := { s with show_hint := false }
  match w.wr (.checkingLine s.app_state.currentExercise.name) with
  | .error e => (s, w, .error e)
  | .ok w =>
  match env.runExercise s.app_state with
  | .error e => (s, w, .error e)
  | .ok (out, success) =>
  let w := w.effect (.ranExercise s.app_state.current_exercise_ind success)
  let s := { s with output := out ++ [10] }
  let tr : Except Err WatchState :=
    if success then
      match env.currentSolutionPath s.app_state with
      | .error e => .error e
      | .ok sp => .ok { s with done_status := doneStatusFor sp }
    else
      match env.setPendingErr with
      | some e => .error e
      | none => .ok { s with
          app_state := s.app_state.set_pending s.app_state.current_exercise_ind,
          done_status := .Pending }
  match tr with
  | .error e => (s, w, .error e)
  | .ok s =>
    match render s w with
    | (w, .error e) => (s, w, .error e)
    | (w, .ok _) => (s, w, .ok ())

/-- From `WatchState::run_current_exercise`: the body runs inside an
`InputPauseGuard` scope; the guard is released on every exit path (RAII). -/
def run_current_exercise (env : Env) (s : WatchState) (w : World) : OpRes Unit :=
  let w := w.effect .guardPause
  match run_current_exercise_body env s w with
  | (s, w, r) => (s, w.effect .guardResume, r)

/-- The bytes accepted as answers by the reset confirmation loop:
`y`, `Y`, `n`, `N`. -/
def isAnswerByte (b : Nat) : Bool :=
  b = 121 || b = 89 || b = 110 || b = 78

/-- The blocking read loop of `WatchState::reset_exercise` (lines 116-139):
read one byte from stdin (an exhausted stdin models a failing `read_exact`);
`y`/`Y` reverts the exercise via the collaborator and, in manual-run mode,
re-runs it; `n`/`N` renders; anything else is discarded and the loop retries. -/
def reset_loop (env : Env) (s : WatchState) (w : World) : List Nat → OpRes Unit
  | [] => (s, w, .error .stdinRead)
  | b :: rest =>
    if b = 121 || b = 89 then
      match env.resetCurrentExercise s.app_state with
      | .error e => (s, w, .error e)
      | .ok a =>
        let w := w.effect (.fileReset s.app_state.current_exercise_ind)
        let s := { s with app_state := a }
        if s.manual_run then run_current_exercise env s w
        else (s, w, .ok ())
    else if b = 110 || b = 78 then
      match render s w with
      | (w, .error e) => (s, w, .error e)
      | (w, .ok _) => (s, w, .ok ())
    else
      reset_loop env s w rest

/-- From `WatchState::reset_exercise`: clear the screen, prompt with the
exercise path, run the confirmation loop over stdin, then send the explicit
resume signal on the rendezvous channel. -/
def reset_exercise (env : Env) (s : WatchState) (w : World) : OpRes Unit :=
  match w.wrs [.clear, .text "Resetting will undo all your changes to the file ",
               .text s.app_state.currentExercise.path, .text "\nReset (y/n)? ", .flush] with
  | (w, .error e) => (s, w, .error e)
  | (w, .ok _) =>
    match reset_loop env s w env.stdin with
    | (s, w, .error e) => (s, w, .error e)
    | (s, w, .ok _) =>
      if env.sendFails then (s, w, .error .chan)
      else (s, w.effect .unpauseSend, .ok ())

/-- From `WatchState::handle_file_change`: a no-op unless the changed index is
the current one, otherwise a re-run. -/
def handle_file_change (env : Env) (s : WatchState) (w : World) (exercise_ind : Nat) :
    OpRes Unit :=
  if s.app_state.current_exercise_ind ≠ exercise_ind then (s, w, .ok ())
  else run_current_exercise env s w

/-- From `WatchState::next_exercise`: report `CurrentPending` while the status
is `Pending`, otherwise delegate to the tracker's mark-done-and-advance. -/
def next_exercise (env : Env) (s : WatchState) (w : World) : OpRes ExercisesProgress :=
  if s.done_status = DoneStatus.Pending then (s, w, .ok .CurrentPending)
  else
    match env.doneCurrentExercise s.app_state with
    | .error e => (s, w, .error e)
    | .ok (prog, a) => ({ s with app_state := a }, w, .ok prog)

/-- From `WatchState::show_hint`: set the flag and render only on the
transition from hidden to shown. -/
def show_hint (s : WatchState) (w : World) : OpRes Unit :=
  if !s.show_hint then
    let s := { s with show_hint := true }
    match render s w with
    | (w, r) => (s, w, r)
  else (s, w, .ok ())

/-- From `WatchState::check_all_exercises`: run all exercises via the
collaborator; on a first failure switch to it only if the current exercise is
done and report `NewPending`; otherwise render the final message and report
`AllDone`. -/
def check_all_exercises (env : Env) (s : WatchState) (w : World) :
    OpRes ExercisesProgress :=
  match w.wr (.text "\n") with
  | .error e => (s, w, .error e)
  | .ok w =>
  match env.checkAllExercises s.app_state with
  | .error e => (s, w, .error e)
  | .ok (res, a) =>
    let s := { s with app_state := a }
    let w := w.noteWritten .checkAllOut
    match res with
    | some first_fail =>
      if s.app_state.currentExercise.done then
        match env.setCurrentIndErr with
        | some e => (s, w, .error e)
        | none =>
            ({ s with app_state := { s.app_state with current_exercise_ind := first_fail } },
             w, .ok .NewPending)
      else (s, w, .ok .NewPending)
    | none =>
      match w.wr .finalMsg with
      | .error e => (s, w, .error e)
      | .ok w => (s, w, .ok .AllDone)

/-- From `WatchState::update_term_width`: render only when the width actually
changed. -/
def update_term_width (s : WatchState) (w : World) (width : Nat) : OpRes Unit :=
  if s.term_width ≠ width then
    let s := { s with term_width := width }
    match render s w with
    | (w, r) => (s, w, r)
  else (s, w, .ok ())

/-- An iterated sequence of `run_current_exercise` calls, one oracle per run,
stopping at the first propagated error. -/
def run_seq : List Env → WatchState → World → OpRes Unit
  | [], s, w => (s, w, .ok ())
  | env :: rest, s, w =>
    match run_current_exercise env s w with
    | (s, w, .ok _) => run_seq rest s w
    | (s, w, .error e) => (s, w, .error e)

/-- Events delivered to the coordinator by the background thread. -/
inductive WatchEvent where
  | runCurrent
  | fileChange (ind : Nat)
  | nextEx
  | hint
  | checkAll
  | resetEv
  | resize (width : Nat)

/-- Modelled from the spec: the outer watch event loop (not under `src/`)
reacts to the progress signal of an operation; a "new pending" signal forces a
refresh by re-running the current exercise, "all done" exits watch mode, and
"current still pending" keeps watching. -/
def handle_progress (env : Env) (s : WatchState) (w : World)
    (prog : ExercisesProgress) : OpRes Bool :=
  match prog with
  | .CurrentPending => (s, w, .ok true)
  | .NewPending =>
    match run_current_exercise env s w with
    | (s, w, .error e) => (s, w, .error e)
    | (s, w, .ok _) => (s, w, .ok true)
  | .AllDone => (s, w, .ok false)

/-- Modelled from the spec: the outer watch event loop dispatches one incoming
event to the matching coordinator operation and handles the returned progress
signal; the `Bool` result is whether watch mode keeps running. -/
def handle_event (env : Env) (s : WatchState) (w : World) : WatchEvent → OpRes Bool
  | .runCurrent =>
    match run_current_exercise env s w with
    | (s, w, .error e) => (s, w, .error e)
    | (s, w, .ok _) => (s, w, .ok true)
  | .fileChange ind =>
    match handle_file_change env s w ind with
    | (s, w, .error e) => (s, w, .error e)
    | (s, w, .ok _) => (s, w, .ok true)
  | .nextEx =>
    match next_exercise env s w with
    | (s, w, .error e) => (s, w, .error e)
    | (s, w, .ok prog) => handle_progress env s w prog
  | .hint =>
    match show_hint s w with
    | (s, w, .error e) => (s, w, .error e)
    | (s, w, .ok _) => (s, w, .ok true)
  | .checkAll =>
    match check_all_exercises env s w with
    | (s, w, .error e) => (s, w, .error e)
    | (s, w, .ok prog) => handle_progress env s w prog
  | .resetEv =>
    match reset_exercise env s w with
    | (s, w, .error e) => (s, w, .error e)
    | (s, w, .ok _) => (s, w, .ok true)
  | .resize width =>
    match update_term_width s w width with
    | (s, w, .error e) => (s, w, .error e)
    | (s, w, .ok _) => (s, w, .ok true)

/-- A whole watch session: process events in order, stopping on a propagated
error or when the loop decides to exit. -/
def run_events : List (Env × WatchEvent) → WatchState → World → OpRes Bool
  | [], s, w => (s, w, .ok true)
  | (env, ev) :: rest, s, w =>
    match handle_event env s w ev with
    | (s, w, .error e) => (s, w, .error e)
    | (s, w, .ok true) => run_events rest s w
    | (s, w, .ok false) => (s, w, .ok false)

def Effect.isFrame : Effect → Bool
  | .frame _ _ => true
  | _ => false

def Effect.isFileReset : Effect → Bool
  | .fileReset _ => true
  | _ => false

def Effect.isUnpause : Effect → Bool
  | .unpauseSend => true
  | _ => false

def Effect.isGuardPause : Effect → Bool
  | .guardPause => true
  | _ => false

def Effect.isRan : Effect → Bool
  | .ranExercise _ _ => true
  | _ => false

/-- Number of renders performed so far (one `frame` marker per render). -/
def countFrames (w : World) : Nat := (w.effects.filter Effect.isFrame).length

/-- Number of exercise-file reverts performed so far. -/
def countFileResets (w : World) : Nat := (w.effects.filter Effect.isFileReset).length

/-- Number of explicit resume signals sent on the rendezvous channel so far. -/
def countUnpause (w : World) : Nat := (w.effects.filter Effect.isUnpause).length

/-- Number of exercise runs triggered so far (each run first acquires the
input pause guard). -/
def countGuardPauses (w : World) : Nat := (w.effects.filter Effect.isGuardPause).length

/-- Number of exercise runs that finished (the collaborator reported an
outcome) so far. -/
def countRan (w : World) : Nat := (w.effects.filter Effect.isRan).length

/-! ### Concrete instances used by witnesses and counterexamples -/

def ex0 : Exercise :=
  { name := "intro1", path := "exercises/intro1.rs", hint := "use println", done := false }

def ex1 : Exercise :=
  { name := "intro2", path := "exercises/intro2.rs", hint := "fix types", done := true }

def app0 : AppState := { exercises := [ex0, ex1], current_exercise_ind := 0 }

def app1 : AppState := { exercises := [ex1, ex0], current_exercise_ind := 0 }

def w0 : World :=
  { written := [], wcount := 0, failAt := none, effects := [], lastRun := none, framesOk := true }

def s0 : WatchState :=
  { app_state := app0, output := [], show_hint := false, done_status := .Pending,
    manual_run := false, term_width := 80 }

def env0 : Env :=
  { runExercise := fun _ => .ok ([72], true),
    currentSolutionPath := fun _ => .ok (some "solutions/intro1.rs"),
    setPendingErr := none, setCurrentIndErr := none,
    doneCurrentExercise := fun a => .ok (.AllDone, a),
    checkAllExercises := fun a => .ok (none, a),
    resetCurrentExercise := fun a => .ok a,
    stdin := [], sendFails := false }

/-! ### World-level lemmas -/

/-- The trace-and-monitor projection of a world: everything except the stdout
stream itself. -/
def monOf (w : World) : List Effect × Option (Nat × Bool) × Bool × Option Nat :=
  (w.effects, w.lastRun, w.framesOk, w.failAt)

theorem wr_ok_char {w w' : World} {e : OutEvent} (h : w.wr e = .ok w') :
    w' = { w with written := w.written ++ [e], wcount := w.wcount + 1 } := by
  unfold World.wr at h
  split at h
  · cases h
  · cases h; rfl

theorem wr_error_char {w : World} {e : OutEvent} {er : Err} (h : w.wr e = .error er) :
    er = .io ∧ w.failAt = some w.wcount := by
  unfold World.wr at h
  split at h
  · cases h; exact ⟨rfl, by assumption⟩
  · cases h

theorem wrs_monOf (es : List OutEvent) (w : World) : monOf (w.wrs es).1 = monOf w := by
  induction es generalizing w with
  | nil => rfl
  | cons e rest ih =>
    unfold World.wrs
    cases h : w.wr e with
    | error er => rfl
    | ok w' =>
      have hc := wr_ok_char h
      simp only [hc] at *
      rw [ih]
      rfl

theorem wrs_ok (es : List OutEvent) (w : World) (h : w.failAt = none) :
    (w.wrs es).2 = .ok () := by
  induction es generalizing w with
  | nil => rfl
  | cons e rest ih =>
    unfold World.wrs
    cases hw : w.wr e with
    | error er =>
      exact absurd ((wr_error_char hw).2) (by simp [h])
    | ok w' =>
      have hc := wr_ok_char hw
      exact ih w' (by rw [hc]; exact h)

theorem andThen_monOf {w : World} (r : World × Except Err Unit)
    (k : World → World × Except Err Unit)
    (h1 : monOf r.1 = monOf w) (h2 : ∀ u, monOf (k u).1 = monOf u) :
    monOf (andThen r k).1 = monOf w := by
  unfold andThen
  rcases r with ⟨w1, r1⟩
  cases r1 with
  | error e => exact h1
  | ok _ => rw [h2 w1]; exact h1

theorem show_prompt_monOf (s : WatchState) (w : World) :
    monOf (show_prompt s w).1 = monOf w := by
  unfold show_prompt
  apply andThen_monOf
  · split <;> first | exact wrs_monOf _ _ | rfl
  intro u
  apply andThen_monOf
  · split <;> first | exact wrs_monOf _ _ | rfl
  intro u
  apply andThen_monOf
  · split <;> first | exact wrs_monOf _ _ | rfl
  intro u
  exact wrs_monOf _ _

theorem render_monOf (s : WatchState) (w : World) :
    monOf (render s w).1 =
      monOf (w.effect (.frame s.done_status s.app_state.current_exercise_ind)) := by
  unfold render
  apply andThen_monOf
  · exact wrs_monOf _ _
  intro u
  apply andThen_monOf
  · split <;> first | exact wrs_monOf _ _ | rfl
  intro u
  apply andThen_monOf
  · split
    · apply andThen_monOf
      · exact wrs_monOf _ _
      intro u
      apply andThen_monOf
      · split <;> first | exact wrs_monOf _ _ | rfl
      intro u
      exact wrs_monOf _ _
    · rfl
  intro u
  apply andThen_monOf
  · exact wrs_monOf _ _
  intro u
  apply andThen_monOf
  · exact wrs_monOf _ _
  intro u
  exact show_prompt_monOf s u

theorem render_effects (s : WatchState) (w : World) :
    (render s w).1.effects =
      w.effects ++ [.frame s.done_status s.app_state.current_exercise_ind] := by
  have h := render_monOf s w
  unfold monOf World.effect at h
  exact congrArg (·.1) h

theorem render_lastRun (s : WatchState) (w : World) :
    (render s w).1.lastRun = w.lastRun := by
  have h := render_monOf s w
  unfold monOf World.effect at h
  exact congrArg (·.2.1) h

theorem render_framesOk (s : WatchState) (w : World) :
    (render s w).1.framesOk =
      (w.framesOk && frameMatches w.lastRun s.done_status s.app_state.current_exercise_ind) := by
  have h := render_monOf s w
  unfold monOf World.effect at h
  exact congrArg (·.2.2.1) h

theorem render_failAt (s : WatchState) (w : World) :
    (render s w).1.failAt = w.failAt := by
  have h := render_monOf s w
  unfold monOf World.effect at h
  exact congrArg (·.2.2.2) h

/-- A stdout phase that succeeds and keeps the failure-injection point absent
whenever no failure is injected. -/
def okOn (f : World → World × Except Err Unit) : Prop :=
  ∀ w, w.failAt = none → (f w).2 = .ok () ∧ (f w).1.failAt = none

theorem wrs_okOn (es : List OutEvent) : okOn (fun w => w.wrs es) := by
  intro w h
  refine ⟨wrs_ok es w h, ?_⟩
  have hm := wrs_monOf es w
  unfold monOf at hm
  have : (w.wrs es).1.failAt = w.failAt := congrArg (·.2.2.2) hm
  rw [this, h]

theorem ite_okOn {c : Prop} [Decidable c] {f g : World → World × Except Err Unit}
    (hf : okOn f) (hg : okOn g) : okOn (fun w => if c then f w else g w) := by
  intro w h
  by_cases hc : c
  · simp only [if_pos hc]; exact hf w h
  · simp only [if_neg hc]; exact hg w h

theorem id_okOn : okOn (fun w => (w, .ok ())) := fun _ h => ⟨rfl, h⟩

theorem andThen_okOn {f k : World → World × Except Err Unit}
    (hf : okOn f) (hk : okOn k) : okOn (fun w => andThen (f w) k) := by
  intro w h
  have h1 := hf w h
  rcases hw : f w with ⟨w1, r1⟩
  rw [hw] at h1
  simp only [andThen, hw]
  cases r1 with
  | error e => exact absurd h1.1 (by simp)
  | ok _ => exact hk w1 h1.2

theorem show_prompt_okOn (s : WatchState) : okOn (show_prompt s) := by
  unfold show_prompt
  exact andThen_okOn (ite_okOn (wrs_okOn _) id_okOn)
    (andThen_okOn (ite_okOn (wrs_okOn _) id_okOn)
      (andThen_okOn (ite_okOn (wrs_okOn _) id_okOn) (wrs_okOn _)))

theorem render_okOn (s : WatchState) : okOn (render s) := by
  unfold render
  intro w h
  have heff : (w.effect (.frame s.done_status s.app_state.current_exercise_ind)).failAt
      = w.failAt := rfl
  refine andThen_okOn (f := fun w => w.wrs _) (wrs_okOn _) ?_ _ (by rw [heff]; exact h)
  refine andThen_okOn (ite_okOn (wrs_okOn _) id_okOn) ?_
  refine andThen_okOn (ite_okOn ?_ id_okOn) ?_
  · exact andThen_okOn (wrs_okOn _)
      (andThen_okOn (fun u hu => by
          revert hu
          exact fun hu => by
            cases s.done_status with
            | DoneWithSolution p => exact wrs_okOn _ u hu
            | DoneWithoutSolution => exact id_okOn u hu
            | Pending => exact id_okOn u hu)
        (wrs_okOn _))
  refine andThen_okOn (wrs_okOn _) ?_
  exact andThen_okOn (wrs_okOn _) (show_prompt_okOn s)

theorem render_ok (s : WatchState) (w : World) (h : w.failAt = none) :
    (render s w).2 = .ok () :=
  (render_okOn s w h).1

/-! ### Counting lemmas -/

theorem filter_none (mid : List Effect) (p : Effect → Bool)
    (h : ∀ e ∈ mid, p e = false) : mid.filter p = [] := by
  induction mid with
  | nil => rfl
  | cons e rest ih =>
    have he : p e = false := h e (by simp)
    simp only [List.filter_cons, he, Bool.false_eq_true, if_false]
    exact ih fun x hx => h x (by simp [hx])

theorem filter_append_none (l mid : List Effect) (p : Effect → Bool)
    (h : ∀ e ∈ mid, p e = false) :
    ((l ++ mid).filter p).length = (l.filter p).length := by
  rw [List.filter_append, filter_none mid p h, List.append_nil]

theorem countFrames_render (s : WatchState) (w : World) :
    countFrames (render s w).1 = countFrames w + 1 := by
  unfold countFrames
  rw [render_effects, List.filter_append]
  simp [Effect.isFrame]

theorem countFileResets_render (s : WatchState) (w : World) :
    countFileResets (render s w).1 = countFileResets w := by
  unfold countFileResets
  rw [render_effects]
  exact filter_append_none _ _ _ (by intro e he; simp at he; simp [he, Effect.isFileReset])

theorem countUnpause_render (s : WatchState) (w : World) :
    countUnpause (render s w).1 = countUnpause w := by
  unfold countUnpause
  rw [render_effects]
  exact filter_append_none _ _ _ (by intro e he; simp at he; simp [he, Effect.isUnpause])

theorem countGuardPauses_render (s : WatchState) (w : World) :
    countGuardPauses (render s w).1 = countGuardPauses w := by
  unfold countGuardPauses
  rw [render_effects]
  exact filter_append_none _ _ _ (by intro e he; simp at he; simp [he, Effect.isGuardPause])

/-- A list of effects containing no file reset, no resume send, and no guard
acquisition. -/
def neutralFx (mid : List Effect) : Prop :=
  ∀ e ∈ mid, e.isFileReset = false ∧ e.isUnpause = false ∧ e.isGuardPause = false

theorem run_body_effects_shape (env : Env) (s : WatchState) (w : World) :
    ∃ mid : List Effect,
      (run_current_exercise_body env s w).2.1.effects = w.effects ++ mid
      ∧ neutralFx mid := by
  simp only [run_current_exercise_body]
  split
  · exact ⟨[], by simp, by intro e he; simp at he⟩
  rename_i w1 hwr
  have hw1 : w1.effects = w.effects := by rw [wr_ok_char hwr]
  split
  · exact ⟨[], by simp [hw1], by intro e he; simp at he⟩
  rename_i out success hrun
  split
  · refine ⟨[.ranExercise s.app_state.current_exercise_ind success], ?_, ?_⟩
    · simp [World.effect, hw1]
    · intro e he
      simp at he
      simp [he, Effect.isFileReset, Effect.isUnpause, Effect.isGuardPause]
  rename_i s2 htr
  split
  · rename_i w2 e hrend
    refine ⟨[.ranExercise s.app_state.current_exercise_ind success,
             .frame s2.done_status s2.app_state.current_exercise_ind], ?_, ?_⟩
    · have h := render_effects s2
        (w1.effect (.ranExercise s.app_state.current_exercise_ind success))
      rw [hrend] at h
      simp only [World.effect, hw1] at h
      simp [h]
    · intro e he
      simp at he
      rcases he with h | h <;>
        simp [h, Effect.isFileReset, Effect.isUnpause, Effect.isGuardPause]
  · rename_i w2 a hrend
    refine ⟨[.ranExercise s.app_state.current_exercise_ind success,
             .frame s2.done_status s2.app_state.current_exercise_ind], ?_, ?_⟩
    · have h := render_effects s2
        (w1.effect (.ranExercise s.app_state.current_exercise_ind success))
      rw [hrend] at h
      simp only [World.effect, hw1] at h
      simp [h]
    · intro e he
      simp at he
      rcases he with h | h <;>
        simp [h, Effect.isFileReset, Effect.isUnpause, Effect.isGuardPause]

/-- The effects a run appends: one guard acquisition, possibly a finished-run
record and a render frame, and the guard release — never a file reset, a
resume send, or a second guard acquisition. -/
theorem run_effects_shape (env : Env) (s : WatchState) (w : World) :
    ∃ mid : List Effect,
      (run_current_exercise env s w).2.1.effects
        = w.effects ++ [Effect.guardPause] ++ mid ++ [Effect.guardResume]
      ∧ neutralFx mid := by
  obtain ⟨mid, h1, h2⟩ := run_body_effects_shape env s (w.effect .guardPause)
  refine ⟨mid, ?_, h2⟩
  simp only [run_current_exercise]
  rcases hb : run_current_exercise_body env s (w.effect .guardPause) with ⟨s1, w1, r1⟩
  rw [hb] at h1
  simp only [hb]
  have hgp : (w.effect Effect.guardPause).effects = w.effects ++ [Effect.guardPause] := rfl
  simp only [World.effect] at h1 ⊢
  simp [h1, hgp]

theorem run_counts (env : Env) (s : WatchState) (w : World) :
    countUnpause (run_current_exercise env s w).2.1 = countUnpause w
    ∧ countFileResets (run_current_exercise env s w).2.1 = countFileResets w
    ∧ countGuardPauses (run_current_exercise env s w).2.1 = countGuardPauses w + 1 := by
  rcases run_effects_shape env s w with ⟨mid, hsh, hmid⟩
  have hgrp : (run_current_exercise env s w).2.1.effects
      = w.effects ++ ([Effect.guardPause] ++ mid ++ [Effect.guardResume]) := by
    rw [hsh]; simp
  refine ⟨?_, ?_, ?_⟩
  · unfold countUnpause
    rw [hgrp]
    apply filter_append_none
    intro e he
    simp at he
    rcases he with h | h | h
    · simp [h, Effect.isUnpause]
    · exact (hmid e h).2.1
    · simp [h, Effect.isUnpause]
  · unfold countFileResets
    rw [hgrp]
    apply filter_append_none
    intro e he
    simp at he
    rcases he with h | h | h
    · simp [h, Effect.isFileReset]
    · exact (hmid e h).1
    · simp [h, Effect.isFileReset]
  · unfold countGuardPauses
    rw [hgrp, List.filter_append, List.filter_append, List.filter_append]
    rw [filter_none mid _ (fun e he => (hmid e he).2.2)]
    simp [Effect.isGuardPause]

/-! ### Reset-loop lemmas -/

theorem reset_loop_discard (env : Env) (s : WatchState) (w : World) (b : Nat)
    (rest : List Nat) (hb : isAnswerByte b = false) :
    reset_loop env s w (b :: rest) = reset_loop env s w rest := by
  unfold isAnswerByte at hb
  simp only [Bool.or_eq_false_iff, decide_eq_false_iff_not] at hb
  conv_lhs => unfold reset_loop
  rw [if_neg (by simp [hb.1.1.1, hb.1.1.2]), if_neg (by simp [hb.1.2, hb.2])]

theorem reset_loop_skip (env : Env) (s : WatchState) (w : World) (pre l : List Nat)
    (hpre : ∀ x ∈ pre, isAnswerByte x = false) :
    reset_loop env s w (pre ++ l) = reset_loop env s w l := by
  induction pre with
  | nil => rfl
  | cons b rest ih =>
    rw [List.cons_append, reset_loop_discard env s w b _ (hpre b (by simp))]
    exact ih fun x hx => hpre x (by simp [hx])

theorem reset_loop_decline (env : Env) (s : WatchState) (w : World) (b : Nat)
    (rest : List Nat) (hb : b = 110 ∨ b = 78) (hw : w.failAt = none) :
    reset_loop env s w (b :: rest) = (s, (render s w).1, .ok ()) := by
  unfold reset_loop
  rw [if_neg (by rcases hb with h | h <;> simp [h]),
      if_pos (by rcases hb with h | h <;> simp [h])]
  have hok := render_ok s w hw
  rcases hr : render s w with ⟨w1, r1⟩
  rw [hr] at hok
  simp only at hok
  rw [hok]

theorem reset_loop_confirm (env : Env) (s : WatchState) (w : World) (b : Nat)
    (rest : List Nat) (a : AppState) (hb : b = 121 ∨ b = 89)
    (ha : env.resetCurrentExercise s.app_state = .ok a) :
    reset_loop env s w (b :: rest) =
      (if s.manual_run then
        run_current_exercise env { s with app_state := a }
          (w.effect (.fileReset s.app_state.current_exercise_ind))
      else ({ s with app_state := a },
            w.effect (.fileReset s.app_state.current_exercise_ind), .ok ())) := by
  unfold reset_loop
  rw [if_pos (by rcases hb with h | h <;> simp [h]), ha]

theorem reset_loop_confirm_err (env : Env) (s : WatchState) (w : World) (b : Nat)
    (rest : List Nat) (e : Err) (hb : b = 121 ∨ b = 89)
    (ha : env.resetCurrentExercise s.app_state = .error e) :
    reset_loop env s w (b :: rest) = (s, w, .error e) := by
  unfold reset_loop
  rw [if_pos (by rcases hb with h | h <;> simp [h]), ha]

/-- C8: while the current exercise is pending, advancing is a pure no-op: it
reports `CurrentPending` and leaves the coordinator state — in particular the
external progress tracker — and the world untouched. -/
theorem next_exercise_pending_noop (env : Env) (s : WatchState) (w : World)
    (h : s.done_status = DoneStatus.Pending) :
    next_exercise env s w = (s, w, .ok .CurrentPending) := by
  unfold next_exercise
  rw [if_pos h]

/-- Witness for C8 at a concrete pending state. -/
theorem next_exercise_pending_noop_witness :
    next_exercise env0 s0 w0 = (s0, w0, .ok .CurrentPending) :=
  next_exercise_pending_noop env0 s0 w0 rfl

/-- C9: toggling the hint display always leaves the hint shown and never
unshows it; it renders exactly on the transition from hidden to shown, is a
pure no-op when the hint is already shown, and a second consecutive call is a
pure no-op. -/
theorem show_hint_idem (s : WatchState) (w : World) :
    (show_hint s w).1.show_hint = true
    ∧ (s.show_hint = false → countFrames (show_hint s w).2.1 = countFrames w + 1)
    ∧ (s.show_hint = true → show_hint s w = (s, w, .ok ()))
    ∧ show_hint (show_hint s w).1 (show_hint s w).2.1
        = ((show_hint s w).1, (show_hint s w).2.1, .ok ()) := by
  by_cases hs : s.show_hint = true
  · have hred : show_hint s w = (s, w, .ok ()) := by
      simp [show_hint, hs]
    refine ⟨?_, ?_, ?_, ?_⟩
    · rw [hred]
      exact hs
    · intro hc
      rw [hc] at hs
      cases hs
    · intro _
      exact hred
    · simp only [hred]
  · have hs' : s.show_hint = false := by revert hs; cases s.show_hint <;> simp
    have hred : show_hint s w =
        ({ s with show_hint := true }, (render { s with show_hint := true } w).1,
          (render { s with show_hint := true } w).2) := by
      simp [show_hint, hs']
    refine ⟨?_, ?_, ?_, ?_⟩
    · rw [hred]
    · intro _
      rw [hred]
      exact countFrames_render _ _
    · intro hc
      rw [hc] at hs'
      cases hs'
    · rw [hred]
      simp [show_hint]

theorem effect_effects (u : World) (e : Effect) : (u.effect e).effects = u.effects ++ [e] := by
  unfold World.effect
  cases e <;> rfl

theorem count_effect (u : World) (e : Effect) (p : Effect → Bool) (hp : p e = false) :
    ((u.effect e).effects.filter p).length = (u.effects.filter p).length := by
  rw [effect_effects]
  exact filter_append_none _ _ _ (by intro x hx; simp at hx; rw [hx]; exact hp)

theorem countUnpause_effect (u : World) (e : Effect) (hp : e.isUnpause = false) :
    countUnpause (u.effect e) = countUnpause u := count_effect u e Effect.isUnpause hp

theorem countFrames_effect (u : World) (e : Effect) (hp : e.isFrame = false) :
    countFrames (u.effect e) = countFrames u := count_effect u e Effect.isFrame hp

theorem countFileResets_effect (u : World) (e : Effect) (hp : e.isFileReset = false) :
    countFileResets (u.effect e) = countFileResets u := count_effect u e Effect.isFileReset hp

theorem countGuardPauses_effect (u : World) (e : Effect) (hp : e.isGuardPause = false) :
    countGuardPauses (u.effect e) = countGuardPauses u :=
  count_effect u e Effect.isGuardPause hp

theorem wrs_effects (es : List OutEvent) (w : World) : (w.wrs es).1.effects = w.effects :=
  congrArg (·.1) (wrs_monOf es w)

/-- C5: the confirmation loop accepts only the answer bytes; any other byte is
discarded without re-prompting and without any other effect, and a decline
byte reached after arbitrary noise declines the reset: the coordinator state
is unchanged, no file revert happens, exactly one redraw is performed, and the
loop succeeds. -/
theorem reset_loop_answers (env : Env) (s : WatchState) (w : World)
    (pre rest : List Nat) (b : Nat)
    (hpre : ∀ x ∈ pre, isAnswerByte x = false)
    (hb : b = 110 ∨ b = 78) (hw : w.failAt = none) :
    reset_loop env s w (pre ++ b :: rest) = reset_loop env s w (b :: rest)
    ∧ reset_loop env s w (pre ++ b :: rest) = (s, (render s w).1, .ok ())
    ∧ countFileResets (reset_loop env s w (pre ++ b :: rest)).2.1 = countFileResets w
    ∧ countFrames (reset_loop env s w (pre ++ b :: rest)).2.1 = countFrames w + 1 := by
  have hskip := reset_loop_skip env s w pre (b :: rest) hpre
  have hdec := reset_loop_decline env s w b rest hb hw
  refine ⟨hskip, hskip.trans hdec, ?_, ?_⟩
  · rw [hskip, hdec]
    exact countFileResets_render s w
  · rw [hskip, hdec]
    exact countFrames_render s w

/-- Witness for C5: the loop fed the bytes x, 3, n declines the reset — no
file revert, one redraw, state unchanged, neither x nor 3 answered. -/
theorem reset_loop_answers_witness :
    reset_loop env0 s0 w0 [120, 51, 110] = (s0, (render s0 w0).1, .ok ())
    ∧ countFileResets (reset_loop env0 s0 w0 [120, 51, 110]).2.1 = countFileResets w0
    ∧ countFrames (reset_loop env0 s0 w0 [120, 51, 110]).2.1 = countFrames w0 + 1 := by
  have h := reset_loop_answers env0 s0 w0 [120, 51] [] 110 (by decide) (Or.inl rfl) rfl
  exact ⟨h.2.1, h.2.2.1, h.2.2.2⟩

/-- C6: a confirming byte reached after arbitrary discarded noise reverts the
exercise file via the collaborator, and triggers a run (acquiring the input
pause guard) exactly when manual-run mode is active; without manual-run mode
the confirm branch performs no run at all. -/
theorem reset_loop_confirm_run (env : Env) (s : WatchState) (w : World)
    (pre rest : List Nat) (b : Nat) (a : AppState)
    (hpre : ∀ x ∈ pre, isAnswerByte x = false)
    (hb : b = 121 ∨ b = 89)
    (ha : env.resetCurrentExercise s.app_state = .ok a) :
    countFileResets (reset_loop env s w (pre ++ b :: rest)).2.1 = countFileResets w + 1
    ∧ (s.manual_run = false →
        reset_loop env s w (pre ++ b :: rest)
          = ({ s with app_state := a },
             w.effect (.fileReset s.app_state.current_exercise_ind), .ok ())
        ∧ countGuardPauses (reset_loop env s w (pre ++ b :: rest)).2.1 = countGuardPauses w)
    ∧ (s.manual_run = true →
        countGuardPauses (reset_loop env s w (pre ++ b :: rest)).2.1
          = countGuardPauses w + 1) := by
  have hskip := reset_loop_skip env s w pre (b :: rest) hpre
  have hcf := reset_loop_confirm env s w b rest a hb ha
  have hfr : countFileResets (w.effect (.fileReset s.app_state.current_exercise_ind))
      = countFileResets w + 1 := by
    unfold countFileResets
    rw [effect_effects, List.filter_append]
    simp [Effect.isFileReset]
  have hgp := countGuardPauses_effect w (.fileReset s.app_state.current_exercise_ind) rfl
  rw [hskip, hcf]
  by_cases hm : s.manual_run = true
  · rw [if_pos hm]
    refine ⟨?_, ?_, ?_⟩
    · rw [(run_counts env _ _).2.1, hfr]
    · intro hc
      rw [hc] at hm
      cases hm
    · intro _
      rw [(run_counts env _ _).2.2, hgp]
  · rw [if_neg hm]
    refine ⟨hfr, fun _ => ⟨rfl, hgp⟩, ?_⟩
    intro hc
    exact absurd hc hm

/-- Witness for C6: the loop fed the single byte y with manual-run inactive
reverts the file and triggers no run. -/
theorem reset_loop_confirm_run_witness :
    countFileResets (reset_loop env0 s0 w0 [121]).2.1 = countFileResets w0 + 1
    ∧ reset_loop env0 s0 w0 [121]
        = ({ s0 with app_state := app0 },
           w0.effect (.fileReset s0.app_state.current_exercise_ind), .ok ()) := by
  have h := reset_loop_confirm_run env0 s0 w0 [] [] 121 app0 (by simp) (Or.inl rfl) rfl
  exact ⟨h.1, (h.2.1 rfl).1⟩

/-- C10: when the user confirms the reset and manual-run mode is inactive, the
reset operation performs no redraw before returning: no render frame is added
anywhere in the operation (only the decline path renders). -/
theorem reset_confirm_no_redraw (env : Env) (s : WatchState) (w : World)
    (pre rest : List Nat) (b : Nat)
    (hpre : ∀ x ∈ pre, isAnswerByte x = false)
    (hb : b = 121 ∨ b = 89)
    (hstdin : env.stdin = pre ++ b :: rest)
    (hm : s.manual_run = false) :
    countFrames (reset_exercise env s w).2.1 = countFrames w := by
  unfold reset_exercise
  split
  · rename_i w1 e heq
    have h1 : (w.wrs [.clear, .text "Resetting will undo all your changes to the file ",
        .text s.app_state.currentExercise.path, .text "\nReset (y/n)? ", .flush]).1 = w1 := by
      rw [heq]
    unfold countFrames
    rw [← h1, wrs_effects]
  rename_i w1 u heq
  have hw1 : countFrames w1 = countFrames w := by
    have h1 : (w.wrs [.clear, .text "Resetting will undo all your changes to the file ",
        .text s.app_state.currentExercise.path, .text "\nReset (y/n)? ", .flush]).1 = w1 := by
      rw [heq]
    unfold countFrames
    rw [← h1, wrs_effects]
  split
  · rename_i s2 w2 e heq2
    rw [hstdin, reset_loop_skip env s w1 pre (b :: rest) hpre] at heq2
    rcases hr : env.resetCurrentExercise s.app_state with er | a
    · rw [reset_loop_confirm_err env s w1 b rest er hb hr] at heq2
      simp only [Prod.mk.injEq] at heq2
      rw [← heq2.2.1]
      exact hw1
    · rw [reset_loop_confirm env s w1 b rest a hb hr, if_neg (by simp [hm])] at heq2
      simp at heq2
  · rename_i s2 w2 u2 heq2
    rw [hstdin, reset_loop_skip env s w1 pre (b :: rest) hpre] at heq2
    rcases hr : env.resetCurrentExercise s.app_state with er | a
    · rw [reset_loop_confirm_err env s w1 b rest er hb hr] at heq2
      simp at heq2
    · rw [reset_loop_confirm env s w1 b rest a hb hr, if_neg (by simp [hm])] at heq2
      simp only [Prod.mk.injEq] at heq2
      have hw2 : w2 = w1.effect (.fileReset s.app_state.current_exercise_ind) :=
        heq2.2.1.symm
      split
      · rw [hw2, countFrames_effect w1 (.fileReset s.app_state.current_exercise_ind) rfl]
        exact hw1
      · rw [hw2, countFrames_effect _ Effect.unpauseSend rfl,
            countFrames_effect w1 (.fileReset s.app_state.current_exercise_ind) rfl]
        exact hw1

/-- Witness for C10: a confirmed reset with manual-run inactive adds no frame. -/
theorem reset_confirm_no_redraw_witness :
    countFrames (reset_exercise { env0 with stdin := [121] } s0 w0).2.1 = countFrames w0 :=
  reset_confirm_no_redraw { env0 with stdin := [121] } s0 w0 [] [] 121
    (by simp) (Or.inl rfl) rfl rfl

theorem reset_loop_unpause (env : Env) (s : WatchState) (w : World) (l : List Nat) :
    countUnpause (reset_loop env s w l).2.1 = countUnpause w := by
  induction l generalizing s w with
  | nil => rfl
  | cons b rest ih =>
    unfold reset_loop
    split
    · rcases hr : env.resetCurrentExercise s.app_state with e | a
      · rfl
      · simp only
        split
        · rw [(run_counts env _ _).1]
          exact countUnpause_effect w _ rfl
        · exact countUnpause_effect w _ rfl
    · split
      · rcases hrd : render s w with ⟨w2, r2⟩
        have h2 : countUnpause w2 = countUnpause w := by
          have : (render s w).1 = w2 := by rw [hrd]
          unfold countUnpause
          rw [← this]
          exact countUnpause_render s w
        cases r2 with
        | error e => exact h2
        | ok _ => exact h2
      · exact ih s w

theorem countUnpause_effect_send (u : World) :
    countUnpause (u.effect .unpauseSend) = countUnpause u + 1 := by
  unfold countUnpause
  rw [effect_effects, List.filter_append]
  simp [Effect.isUnpause]

/-- C4 (amended): the explicit resume signal at the end of the reset flow is
sent exactly once on each successful return path (confirm or decline); but
when a failure propagates from within the confirmation loop — or from the
prompt writes before it — the operation returns the error before reaching the
send, and no resume signal is sent on that path. -/
theorem reset_resume_signal (env : Env) (s : WatchState) (w : World) :
    ((reset_exercise env s w).2.2 = .ok () →
      countUnpause (reset_exercise env s w).2.1 = countUnpause w + 1)
    ∧ (∀ e, (reset_exercise env s w).2.2 = .error e →
      countUnpause (reset_exercise env s w).2.1 = countUnpause w) := by
  unfold reset_exercise
  split
  · rename_i w1 e heq
    have hw1 : countUnpause w1 = countUnpause w := by
      have h1 : (w.wrs [.clear, .text "Resetting will undo all your changes to the file ",
          .text s.app_state.currentExercise.path, .text "\nReset (y/n)? ", .flush]).1 = w1 := by
        rw [heq]
      unfold countUnpause
      rw [← h1, wrs_effects]
    exact ⟨fun hc => Except.noConfusion hc, fun _ _ => hw1⟩
  rename_i w1 u heq
  have hw1 : countUnpause w1 = countUnpause w := by
    have h1 : (w.wrs [.clear, .text "Resetting will undo all your changes to the file ",
        .text s.app_state.currentExercise.path, .text "\nReset (y/n)? ", .flush]).1 = w1 := by
      rw [heq]
    unfold countUnpause
    rw [← h1, wrs_effects]
  split
  · rename_i s2 w2 e heq2
    have hw2 : countUnpause w2 = countUnpause w1 := by
      have h := reset_loop_unpause env s w1 env.stdin
      rw [heq2] at h
      exact h
    exact ⟨fun hc => Except.noConfusion hc, fun _ _ => hw2.trans hw1⟩
  · rename_i s2 w2 u2 heq2
    have hw2 : countUnpause w2 = countUnpause w1 := by
      have h := reset_loop_unpause env s w1 env.stdin
      rw [heq2] at h
      exact h
    split
    · exact ⟨fun hc => Except.noConfusion hc, fun _ _ => hw2.trans hw1⟩
    · refine ⟨fun _ => ?_, fun e hc => Except.noConfusion hc⟩
      rw [countUnpause_effect_send, hw2, hw1]

/-- Counterexample for C4: with an exhausted standard input the first blocking
read of the confirmation loop fails; the error propagates out of the reset
operation and no resume signal at all is sent on that return path, while the
claim demands exactly one on every return path. -/
theorem reset_resume_signal_counterexample :
    (reset_exercise env0 s0 w0).2.2 = .error .stdinRead
    ∧ countUnpause (reset_exercise env0 s0 w0).2.1 = 0 := ⟨rfl, rfl⟩

/-- Witness for C4 (amended) on the decline path: exactly one resume signal. -/
theorem reset_resume_signal_witness :
    countUnpause (reset_exercise { env0 with stdin := [110] } s0 w0).2.1
      = countUnpause w0 + 1 :=
  (reset_resume_signal { env0 with stdin := [110] } s0 w0).1 (by rfl)

/-- Witness for C9 at a concrete hidden-hint state: the first call renders
once and the second call is a pure no-op. -/
theorem show_hint_idem_witness :
    countFrames (show_hint s0 w0).2.1 = countFrames w0 + 1
    ∧ show_hint (show_hint s0 w0).1 (show_hint s0 w0).2.1
        = ((show_hint s0 w0).1, (show_hint s0 w0).2.1, .ok ()) :=
  ⟨(show_hint_idem s0 w0).2.1 rfl, (show_hint_idem s0 w0).2.2.2⟩

/-- C7: check-all consults the collaborator over every exercise; on a first
failing exercise it reports `NewPending` and switches the displayed exercise
to the first failing one exactly when the current exercise is already marked
done (a pending current exercise is never switched away from); when none fail
it reports `AllDone`, renders the final completion message, and leaves the
current exercise index unchanged. -/
theorem check_all_spec (env : Env) (s : WatchState) (w : World)
    (res : Option Nat) (a : AppState)
    (hca : env.checkAllExercises s.app_state = .ok (res, a))
    (hind : a.current_exercise_ind = s.app_state.current_exercise_ind)
    (hset : env.setCurrentIndErr = none)
    (hw : w.failAt = none) :
    (∀ first_fail, res = some first_fail →
      (check_all_exercises env s w).2.2 = .ok .NewPending
      ∧ (check_all_exercises env s w).1.app_state.current_exercise_ind
          = (if a.currentExercise.done then first_fail
             else s.app_state.current_exercise_ind)
      ∧ (a.currentExercise.done = false →
          (check_all_exercises env s w).1.app_state = a))
    ∧ (res = none →
      (check_all_exercises env s w).2.2 = .ok .AllDone
      ∧ (check_all_exercises env s w).1.app_state = a
      ∧ (check_all_exercises env s w).1.app_state.current_exercise_ind
          = s.app_state.current_exercise_ind
      ∧ OutEvent.finalMsg ∈ (check_all_exercises env s w).2.1.written) := by
  unfold check_all_exercises
  rcases hw1 : w.wr (.text "\n") with e | w1
  · exact absurd (wr_error_char hw1).2 (by simp [hw])
  have hchar := wr_ok_char hw1
  simp only [hw1, hca]
  constructor
  · intro first_fail hres
    subst hres
    by_cases hd : a.currentExercise.done = true
    · simp only [hset]
      simp [hd]
    · have hdf : a.currentExercise.done = false := by
        revert hd; cases a.currentExercise.done <;> simp
      simp [hdf, hind]
  · intro hres
    subst hres
    rcases hw2 : ((w1.noteWritten OutEvent.checkAllOut).wr .finalMsg) with e | w2
    · have hfa : (w1.noteWritten OutEvent.checkAllOut).failAt = none := by
        rw [hchar]
        exact hw
      exact absurd (wr_error_char hw2).2 (by simp [hfa])
    have hchar2 := wr_ok_char hw2
    simp only [hw2]
    refine ⟨by trivial, by trivial, hind, ?_⟩
    rw [hchar2]
    simp [World.noteWritten]

/-- Witness for C7: a fully passing check-all on a concrete state reports all
done without touching the current index; a failing check-all on a state whose
current exercise is done switches to the first failing index. -/
theorem check_all_spec_witness :
    ((check_all_exercises env0 s0 w0).2.2 = .ok .AllDone
      ∧ (check_all_exercises env0 s0 w0).1.app_state.current_exercise_ind
          = s0.app_state.current_exercise_ind)
    ∧ ((check_all_exercises { env0 with checkAllExercises := fun b => .ok (some 1, b) }
          { s0 with app_state := app1 } w0).2.2 = .ok .NewPending
      ∧ (check_all_exercises { env0 with checkAllExercises := fun b => .ok (some 1, b) }
          { s0 with app_state := app1 } w0).1.app_state.current_exercise_ind = 1) := by
  constructor
  · have h := (check_all_spec env0 s0 w0 none app0 rfl rfl rfl rfl).2 rfl
    exact ⟨h.1, h.2.2.1⟩
  · have h := ((check_all_spec { env0 with checkAllExercises := fun b => .ok (some 1, b) }
        { s0 with app_state := app1 } w0 (some 1) app1 rfl rfl rfl rfl).1 1 rfl)
    refine ⟨h.1, ?_⟩
    rw [h.2.1]
    rfl

/-! ### Characterization of one run, by collaborator outcome -/

theorem run_unfold (env : Env) (s : WatchState) (w : World) :
    run_current_exercise env s w =
      ((run_current_exercise_body env s (w.effect .guardPause)).1,
       (run_current_exercise_body env s (w.effect .guardPause)).2.1.effect .guardResume,
       (run_current_exercise_body env s (w.effect .guardPause)).2.2) := by
  unfold run_current_exercise
  rfl

theorem run_body_wr_err (env : Env) (s : WatchState) (w : World) (e : Err)
    (hwr1 : w.wr (.checkingLine s.app_state.currentExercise.name) = .error e) :
    run_current_exercise_body env s w = ({ s with show_hint := false }, w, .error e) := by
  simp only [run_current_exercise_body, hwr1]

theorem run_body_run_err (env : Env) (s : WatchState) (w w1 : World) (e : Err)
    (hwr1 : w.wr (.checkingLine s.app_state.currentExercise.name) = .ok w1)
    (hrun : env.runExercise s.app_state = .error e) :
    run_current_exercise_body env s w = ({ s with show_hint := false }, w1, .error e) := by
  simp only [run_current_exercise_body, hwr1, hrun]

theorem run_body_sol_err (env : Env) (s : WatchState) (w w1 : World) (out : List Nat) (e : Err)
    (hwr1 : w.wr (.checkingLine s.app_state.currentExercise.name) = .ok w1)
    (hrun : env.runExercise s.app_state = .ok (out, true))
    (hsol : env.currentSolutionPath s.app_state = .error e) :
    run_current_exercise_body env s w =
      ({ s with show_hint := false, output := out ++ [10] },
       w1.effect (.ranExercise s.app_state.current_exercise_ind true), .error e) := by
  simp [run_current_exercise_body, hwr1, hrun, hsol]

theorem run_body_sp_err (env : Env) (s : WatchState) (w w1 : World) (out : List Nat) (e : Err)
    (hwr1 : w.wr (.checkingLine s.app_state.currentExercise.name) = .ok w1)
    (hrun : env.runExercise s.app_state = .ok (out, false))
    (hsp : env.setPendingErr = some e) :
    run_current_exercise_body env s w =
      ({ s with show_hint := false, output := out ++ [10] },
       w1.effect (.ranExercise s.app_state.current_exercise_ind false), .error e) := by
  simp [run_current_exercise_body, hwr1, hrun, hsp]

theorem run_body_success_char (env : Env) (s : WatchState) (w w1 : World)
    (out : List Nat) (sp : Option String)
    (hwr1 : w.wr (.checkingLine s.app_state.currentExercise.name) = .ok w1)
    (hrun : env.runExercise s.app_state = .ok (out, true))
    (hsol : env.currentSolutionPath s.app_state = .ok sp) :
    run_current_exercise_body env s w =
      ({ s with show_hint := false, output := out ++ [10], done_status := doneStatusFor sp },
       (render { s with show_hint := false, output := out ++ [10], done_status := doneStatusFor sp } (w1.effect (.ranExercise s.app_state.current_exercise_ind true))).1,
       (render { s with show_hint := false, output := out ++ [10], done_status := doneStatusFor sp } (w1.effect (.ranExercise s.app_state.current_exercise_ind true))).2) := by
  simp [run_current_exercise_body, hwr1, hrun, hsol]
  split <;> rename_i x y heq <;> rw [heq]

theorem run_body_fail_char (env : Env) (s : WatchState) (w w1 : World) (out : List Nat)
    (hwr1 : w.wr (.checkingLine s.app_state.currentExercise.name) = .ok w1)
    (hrun : env.runExercise s.app_state = .ok (out, false))
    (hsp : env.setPendingErr = none) :
    run_current_exercise_body env s w =
      ({ s with show_hint := false, output := out ++ [10], app_state := s.app_state.set_pending s.app_state.current_exercise_ind, done_status := .Pending },
       (render { s with show_hint := false, output := out ++ [10], app_state := s.app_state.set_pending s.app_state.current_exercise_ind, done_status := .Pending } (w1.effect (.ranExercise s.app_state.current_exercise_ind false))).1,
       (render { s with show_hint := false, output := out ++ [10], app_state := s.app_state.set_pending s.app_state.current_exercise_ind, done_status := .Pending } (w1.effect (.ranExercise s.app_state.current_exercise_ind false))).2) := by
  simp [run_current_exercise_body, hwr1, hrun, hsp]
  split <;> rename_i x y heq <;> rw [heq]

theorem run_ok_char (env : Env) (s : WatchState) (w : World)
    (h : (run_current_exercise env s w).2.2 = .ok ()) :
    ∃ out success, env.runExercise s.app_state = .ok (out, success)
    ∧ ((run_current_exercise env s w).1.done_status = DoneStatus.Pending ↔ success = false)
    ∧ (∀ sp, success = true → env.currentSolutionPath s.app_state = .ok sp →
        (run_current_exercise env s w).1.done_status = doneStatusFor sp) := by
  rw [run_unfold] at h ⊢
  rcases hwr1 : (w.effect .guardPause).wr (.checkingLine s.app_state.currentExercise.name)
    with e | w1
  · rw [run_body_wr_err env s _ e hwr1] at h
    exact absurd h (by simp)
  rcases hrun : env.runExercise s.app_state with e | ⟨out, success⟩
  · rw [run_body_run_err env s _ w1 e hwr1 hrun] at h
    exact absurd h (by simp)
  cases success
  · rcases hsp : env.setPendingErr with _ | e
    · rw [run_body_fail_char env s _ w1 out hwr1 hrun hsp] at h ⊢
      refine ⟨out, false, rfl, ?_, ?_⟩
      · simp
      · intro sp hc
        cases hc
    · rw [run_body_sp_err env s _ w1 out e hwr1 hrun hsp] at h
      exact absurd h (by simp)
  · rcases hsol : env.currentSolutionPath s.app_state with e | sp
    · rw [run_body_sol_err env s _ w1 out e hwr1 hrun hsol] at h
      exact absurd h (by simp)
    · rw [run_body_success_char env s _ w1 out sp hwr1 hrun hsol] at h ⊢
      refine ⟨out, true, rfl, ?_, ?_⟩
      · cases sp <;> simp [doneStatusFor]
      · intro sp' _ hsol'
        injection hsol' with hsp2
        rw [← hsp2]

theorem run_seq_append (xs ys : List Env) (s : WatchState) (w : World) :
    run_seq (xs ++ ys) s w =
      (match run_seq xs s w with
       | (s1, w1, .ok _) => run_seq ys s1 w1
       | (s1, w1, .error e) => (s1, w1, .error e)) := by
  induction xs generalizing s w with
  | nil => rfl
  | cons env rest ih =>
    rcases hr : run_current_exercise env s w with ⟨s1, w1, r1⟩
    cases r1 with
    | ok u =>
      have hl : run_seq (env :: (rest ++ ys)) s w = run_seq (rest ++ ys) s1 w1 := by
        conv_lhs => unfold run_seq
        rw [hr]
      have hr2 : run_seq (env :: rest) s w = run_seq rest s1 w1 := by
        conv_lhs => unfold run_seq
        rw [hr]
      rw [List.cons_append, hl, ih, hr2]
    | error e =>
      have hl : run_seq (env :: (rest ++ ys)) s w = (s1, w1, .error e) := by
        conv_lhs => unfold run_seq
        rw [hr]
      have hr2 : run_seq (env :: rest) s w = (s1, w1, .error e) := by
        conv_lhs => unfold run_seq
        rw [hr]
      rw [List.cons_append, hl, hr2]

/-- C1: over any successful sequence of runs, the done status after the
sequence is `Pending` exactly when the most recent run reported failure, and a
successful most recent run leaves `DoneWithSolution p` when the collaborator
reports solution path `p` and `DoneWithoutSolution` when it reports none. -/
theorem run_seq_last_status (init : List Env) (env : Env) (s : WatchState) (w : World)
    (hok : (run_seq (init ++ [env]) s w).2.2 = .ok ()) :
    ((run_seq (init ++ [env]) s w).1.done_status = DoneStatus.Pending
      ↔ ∃ out, env.runExercise (run_seq init s w).1.app_state = .ok (out, false))
    ∧ (∀ out sp, env.runExercise (run_seq init s w).1.app_state = .ok (out, true) →
        env.currentSolutionPath (run_seq init s w).1.app_state = .ok sp →
        (run_seq (init ++ [env]) s w).1.done_status = doneStatusFor sp) := by
  have happ := run_seq_append init [env] s w
  rcases hmid : run_seq init s w with ⟨s1, w1, r1⟩
  rw [hmid] at happ
  cases r1 with
  | error e =>
    have happ2 : run_seq (init ++ [env]) s w = (s1, w1, .error e) := by rw [happ]
    rw [happ2] at hok
    exact absurd hok (by simp)
  | ok u =>
    have happ2 : run_seq (init ++ [env]) s w = run_seq [env] s1 w1 := by rw [happ]
    rw [happ2] at hok ⊢
    rcases hrun1 : run_current_exercise env s1 w1 with ⟨s2, w2, r2⟩
    cases r2 with
    | error e =>
      have hone : run_seq [env] s1 w1 = (s2, w2, .error e) := by
        conv_lhs => unfold run_seq
        rw [hrun1]
      rw [hone] at hok
      exact absurd hok (by simp)
    | ok u2 =>
      have hone : run_seq [env] s1 w1 = (s2, w2, .ok ()) := by
        conv_lhs => unfold run_seq
        rw [hrun1]
        cases u2
        rfl
      rw [hone]
      have hchar := run_ok_char env s1 w1 (by rw [hrun1])
      rw [hrun1] at hchar
      obtain ⟨out, success, hrun, hiff, hsol⟩ := hchar
      constructor
      · constructor
        · intro hp
          have hs : success = false := hiff.mp hp
          exact ⟨out, hs ▸ hrun⟩
        · rintro ⟨out', hrun'⟩
          rw [hrun] at hrun'
          injection hrun' with hpair
          injection hpair with hout hsucc
          exact hiff.mpr hsucc
      · intro out' sp hrun' hsol'
        rw [hrun] at hrun'
        injection hrun' with hpair
        injection hpair with hout hsucc
        exact hsol sp hsucc hsol'

/-- Witness for C1: two runs, the first succeeding with a solution path and
the second failing, end with status Pending; a single successful run ends with
the reported solution path. -/
theorem run_seq_last_status_witness :
    (run_seq [env0, { env0 with runExercise := fun _ => .ok ([], false) }] s0 w0).1.done_status
      = DoneStatus.Pending
    ∧ (run_seq [env0] s0 w0).1.done_status
      = DoneStatus.DoneWithSolution "solutions/intro1.rs" := by
  constructor
  · exact (run_seq_last_status [env0] { env0 with runExercise := fun _ => .ok ([], false) }
      s0 w0 (by rfl)).1.mpr ⟨[], rfl⟩
  · exact (run_seq_last_status [] env0 s0 w0 (by rfl)).2 [72] (some "solutions/intro1.rs")
      rfl rfl

/-! ### Render failures are stdout I/O failures -/

/-- A stdout phase whose only failures are I/O write failures. -/
def errIoOn (f : World → World × Except Err Unit) : Prop :=
  ∀ w e, (f w).2 = .error e → e = .io

theorem wrs_errIo (es : List OutEvent) : errIoOn (fun w => w.wrs es) := by
  induction es with
  | nil =>
    intro w e h
    exact Except.noConfusion h
  | cons ev rest ih =>
    intro w e h
    unfold World.wrs at h
    rcases hw : w.wr ev with er | w'
    · rw [hw] at h
      injection h with he
      rw [← he]
      exact (wr_error_char hw).1
    · rw [hw] at h
      exact ih w' e h

theorem ite_errIo {c : Prop} [Decidable c] {f g : World → World × Except Err Unit}
    (hf : errIoOn f) (hg : errIoOn g) : errIoOn (fun w => if c then f w else g w) := by
  intro w e h
  replace h : (if c then f w else g w).2 = .error e := h
  by_cases hc : c
  · rw [if_pos hc] at h
    exact hf w e h
  · rw [if_neg hc] at h
    exact hg w e h

theorem id_errIo : errIoOn (fun w => (w, .ok ())) := fun _ _ h => Except.noConfusion h

theorem andThen_errIo {f k : World → World × Except Err Unit}
    (hf : errIoOn f) (hk : errIoOn k) : errIoOn (fun w => andThen (f w) k) := by
  intro w e h
  rcases hw : f w with ⟨w1, r1⟩
  simp only [andThen, hw] at h
  cases r1 with
  | error e1 =>
    injection h with he
    rw [← he]
    exact hf w e1 (by rw [hw])
  | ok _ => exact hk w1 e h

theorem show_prompt_errIo (s : WatchState) : errIoOn (show_prompt s) := by
  unfold show_prompt
  exact andThen_errIo (ite_errIo (wrs_errIo _) id_errIo)
    (andThen_errIo (ite_errIo (wrs_errIo _) id_errIo)
      (andThen_errIo (ite_errIo (wrs_errIo _) id_errIo) (wrs_errIo _)))

theorem render_errIo (s : WatchState) : errIoOn (render s) := by
  unfold render
  intro w e h
  refine andThen_errIo (f := fun w => w.wrs _) (wrs_errIo _) ?_ _ e h
  refine andThen_errIo (ite_errIo (wrs_errIo _) id_errIo) ?_
  refine andThen_errIo (ite_errIo ?_ id_errIo) ?_
  · refine andThen_errIo (wrs_errIo _) (andThen_errIo ?_ (wrs_errIo _))
    intro u e2 h2
    revert h2
    cases s.done_status with
    | DoneWithSolution p => exact wrs_errIo _ u e2
    | DoneWithoutSolution => exact id_errIo u e2
    | Pending => exact id_errIo u e2
  refine andThen_errIo (wrs_errIo _) ?_
  exact andThen_errIo (wrs_errIo _) (show_prompt_errIo s)

theorem render_error_io (s : WatchState) (w : World) (e : Err)
    (h : (render s w).2 = .error e) : e = .io := render_errIo s w e h

theorem wr_ok_of_ne (w : World) (e : OutEvent) (h : ¬w.failAt = some w.wcount) :
    w.wr e = .ok { w with written := w.written ++ [e], wcount := w.wcount + 1 } := by
  unfold World.wr
  rw [if_neg h]

/-- C3: every I/O failure inside run-current-exercise is propagated to the
caller as fatal, with no local recovery: a failing run collaborator, a failing
solution-path query, or a failing tracker update each abort the operation with
that error before any status transition is applied. The one exception is a
failure while writing the output screen after the run: once the run finished,
the computed DoneStatus/tracker transition is applied even when the subsequent
write of the captured output fails (the only error that can then surface is
the I/O write error from the final render). -/
theorem run_error_contract (env : Env) (s : WatchState) (w : World) :
    (∀ e, w.failAt = none → env.runExercise s.app_state = .error e →
      (run_current_exercise env s w).2.2 = .error e
      ∧ (run_current_exercise env s w).1.done_status = s.done_status
      ∧ (run_current_exercise env s w).1.app_state = s.app_state)
    ∧ (∀ e out, w.failAt = none → env.runExercise s.app_state = .ok (out, false) →
        env.setPendingErr = some e →
        (run_current_exercise env s w).2.2 = .error e
        ∧ (run_current_exercise env s w).1.done_status = s.done_status)
    ∧ (∀ e out, w.failAt = none → env.runExercise s.app_state = .ok (out, true) →
        env.currentSolutionPath s.app_state = .error e →
        (run_current_exercise env s w).2.2 = .error e
        ∧ (run_current_exercise env s w).1.done_status = s.done_status)
    ∧ (∀ out sp, ¬w.failAt = some w.wcount →
        env.runExercise s.app_state = .ok (out, true) →
        env.currentSolutionPath s.app_state = .ok sp →
        (run_current_exercise env s w).1.done_status = doneStatusFor sp
        ∧ (∀ e, (run_current_exercise env s w).2.2 = .error e → e = .io))
    ∧ (∀ out, ¬w.failAt = some w.wcount →
        env.runExercise s.app_state = .ok (out, false) →
        env.setPendingErr = none →
        (run_current_exercise env s w).1.done_status = DoneStatus.Pending
        ∧ (run_current_exercise env s w).1.app_state
            = s.app_state.set_pending s.app_state.current_exercise_ind
        ∧ (∀ e, (run_current_exercise env s w).2.2 = .error e → e = .io)) := by
  have hgpf : (w.effect Effect.guardPause).failAt = w.failAt := rfl
  have hgpc : (w.effect Effect.guardPause).wcount = w.wcount := rfl
  refine ⟨?_, ?_, ?_, ?_, ?_⟩
  · intro e hfa hrun
    have hwr1 := wr_ok_of_ne (w.effect .guardPause)
      (.checkingLine s.app_state.currentExercise.name) (by rw [hgpf, hgpc, hfa]; simp)
    rw [run_unfold, run_body_run_err env s _ _ e hwr1 hrun]
    exact ⟨rfl, rfl, rfl⟩
  · intro e out hfa hrun hsp
    have hwr1 := wr_ok_of_ne (w.effect .guardPause)
      (.checkingLine s.app_state.currentExercise.name) (by rw [hgpf, hgpc, hfa]; simp)
    rw [run_unfold, run_body_sp_err env s _ _ out e hwr1 hrun hsp]
    exact ⟨rfl, rfl⟩
  · intro e out hfa hrun hsol
    have hwr1 := wr_ok_of_ne (w.effect .guardPause)
      (.checkingLine s.app_state.currentExercise.name) (by rw [hgpf, hgpc, hfa]; simp)
    rw [run_unfold, run_body_sol_err env s _ _ out e hwr1 hrun hsol]
    exact ⟨rfl, rfl⟩
  · intro out sp hfa hrun hsol
    have hwr1 := wr_ok_of_ne (w.effect .guardPause)
      (.checkingLine s.app_state.currentExercise.name) (by rw [hgpf, hgpc]; exact hfa)
    rw [run_unfold, run_body_success_char env s _ _ out sp hwr1 hrun hsol]
    refine ⟨rfl, ?_⟩
    intro e h
    exact render_error_io _ _ e h
  · intro out hfa hrun hsp
    have hwr1 := wr_ok_of_ne (w.effect .guardPause)
      (.checkingLine s.app_state.currentExercise.name) (by rw [hgpf, hgpc]; exact hfa)
    rw [run_unfold, run_body_fail_char env s _ _ out hwr1 hrun hsp]
    refine ⟨rfl, rfl, ?_⟩
    intro e h
    exact render_error_io _ _ e h

/-- Witness for C3: a failing run with a stdout failure injected into the
final render still applies the Pending transition and the tracker update, and
the operation surfaces the I/O error. -/
theorem run_error_contract_witness :
    (run_current_exercise { env0 with runExercise := fun _ => .ok ([72], false) } s0
        { w0 with failAt := some 1 }).1.done_status = DoneStatus.Pending
    ∧ (run_current_exercise { env0 with runExercise := fun _ => .ok ([72], false) } s0
        { w0 with failAt := some 1 }).1.app_state = app0.set_pending 0
    ∧ (run_current_exercise { env0 with runExercise := fun _ => .ok ([72], false) } s0
        { w0 with failAt := some 1 }).2.2 = .error .io := by
  have h := (run_error_contract { env0 with runExercise := fun _ => .ok ([72], false) } s0
    { w0 with failAt := some 1 }).2.2.2.2 [72] (by decide) rfl rfl
  exact ⟨h.1, h.2.1, by rfl⟩

/-! ### C2: the displayed status is never stale -/

/-- The coordinator state agrees with the most recent finished run: the
current index is the run's index and the status is `Pending` exactly when that
run failed; before any run the status is `Pending`. -/
def stateOk (s : WatchState) (lr : Option (Nat × Bool)) : Prop :=
  match lr with
  | none => s.done_status = DoneStatus.Pending
  | some (i, success) =>
      s.app_state.current_exercise_ind = i
      ∧ (s.done_status = DoneStatus.Pending ↔ success = false)

/-- Collaborator contract assumed by the staleness invariant, both from the
spec: mark-done-and-advance reports only "more exercises remain" or "all
complete" (never "current still pending"), and reverting an exercise file does
not navigate (the current index is unchanged). -/
def EnvGood (env : Env) : Prop :=
  (∀ a p b, env.doneCurrentExercise a = .ok (p, b) → p ≠ ExercisesProgress.CurrentPending)
  ∧ (∀ a a2, env.resetCurrentExercise a = .ok a2 →
      a2.current_exercise_ind = a.current_exercise_ind)

theorem stateOk_frameMatches {s : WatchState} {lr : Option (Nat × Bool)}
    (h : stateOk s lr) :
    frameMatches lr s.done_status s.app_state.current_exercise_ind = true := by
  cases lr with
  | none =>
    simp only [frameMatches, decide_eq_true_eq]
    exact h
  | some p =>
    rcases p with ⟨i, success⟩
    rcases h with ⟨h1, h2⟩
    simp only [frameMatches, h1, decide_True, Bool.true_and]
    cases success with
    | false =>
      have : s.done_status = DoneStatus.Pending := h2.mpr rfl
      simp [this]
    | true =>
      have : ¬s.done_status = DoneStatus.Pending := fun hc => by
        have := h2.mp hc
        cases this
      simp [this]

theorem effect_gr_framesOk (u : World) :
    (u.effect .guardResume).framesOk = u.framesOk := rfl

theorem effect_gr_lastRun (u : World) :
    (u.effect .guardResume).lastRun = u.lastRun := rfl

theorem effect_ran_framesOk (u : World) (i : Nat) (b : Bool) :
    (u.effect (.ranExercise i b)).framesOk = u.framesOk := rfl

theorem effect_ran_lastRun (u : World) (i : Nat) (b : Bool) :
    (u.effect (.ranExercise i b)).lastRun = some (i, b) := rfl

theorem effect_fr_framesOk (u : World) (i : Nat) :
    (u.effect (.fileReset i)).framesOk = u.framesOk := rfl

theorem effect_fr_lastRun (u : World) (i : Nat) :
    (u.effect (.fileReset i)).lastRun = u.lastRun := rfl

theorem effect_us_framesOk (u : World) :
    (u.effect .unpauseSend).framesOk = u.framesOk := rfl

theorem effect_us_lastRun (u : World) :
    (u.effect .unpauseSend).lastRun = u.lastRun := rfl

theorem effect_gp_framesOk (u : World) :
    (u.effect .guardPause).framesOk = u.framesOk := rfl

theorem effect_gp_lastRun (u : World) :
    (u.effect .guardPause).lastRun = u.lastRun := rfl

theorem frameMatches_success (i : Nat) (sp : Option String) :
    frameMatches (some (i, true)) (doneStatusFor sp) i = true := by
  cases sp <;> simp [frameMatches, doneStatusFor]

theorem frameMatches_fail (i : Nat) :
    frameMatches (some (i, false)) DoneStatus.Pending i = true := by
  simp [frameMatches]

theorem set_pending_ind (a : AppState) (i : Nat) :
    (a.set_pending i).current_exercise_ind = a.current_exercise_ind := rfl

theorem wr_framesOk {w w1 : World} {e : OutEvent} (h : w.wr e = .ok w1) :
    w1.framesOk = w.framesOk := by
  rw [wr_ok_char h]

theorem wr_lastRun {w w1 : World} {e : OutEvent} (h : w.wr e = .ok w1) :
    w1.lastRun = w.lastRun := by
  rw [wr_ok_char h]

/-- A run preserves the frame monitor unconditionally (its own frame, if any,
shows the status it just computed from its own finished run), and a
successfully returning run leaves the state consistent with the new most
recent run. -/
theorem run_inv (env : Env) (s : WatchState) (w : World) (hok : w.framesOk = true) :
    (run_current_exercise env s w).2.1.framesOk = true
    ∧ ((run_current_exercise env s w).2.2 = .ok () →
        stateOk (run_current_exercise env s w).1 (run_current_exercise env s w).2.1.lastRun) := by
  rw [run_unfold]
  rcases hwr1 : (w.effect .guardPause).wr (.checkingLine s.app_state.currentExercise.name)
    with e | w1
  · rw [run_body_wr_err env s _ e hwr1]
    refine ⟨?_, fun hc => absurd hc (by simp)⟩
    rw [effect_gr_framesOk, effect_gp_framesOk]
    exact hok
  have hw1f : w1.framesOk = w.framesOk := by
    rw [wr_framesOk hwr1, effect_gp_framesOk]
  rcases hrun : env.runExercise s.app_state with e | ⟨out, success⟩
  · rw [run_body_run_err env s _ w1 e hwr1 hrun]
    refine ⟨?_, fun hc => absurd hc (by simp)⟩
    rw [effect_gr_framesOk, hw1f]
    exact hok
  cases success
  · rcases hsp : env.setPendingErr with _ | e
    · rw [run_body_fail_char env s _ w1 out hwr1 hrun hsp]
      constructor
      · rw [effect_gr_framesOk, render_framesOk, effect_ran_framesOk, hw1f, hok,
            effect_ran_lastRun]
        simp [set_pending_ind, frameMatches_fail]
      · intro _
        rw [effect_gr_lastRun, render_lastRun, effect_ran_lastRun]
        exact ⟨rfl, by simp⟩
    · rw [run_body_sp_err env s _ w1 out e hwr1 hrun hsp]
      refine ⟨?_, fun hc => absurd hc (by simp)⟩
      rw [effect_gr_framesOk, effect_ran_framesOk, hw1f]
      exact hok
  · rcases hsol : env.currentSolutionPath s.app_state with e | sp
    · rw [run_body_sol_err env s _ w1 out e hwr1 hrun hsol]
      refine ⟨?_, fun hc => absurd hc (by simp)⟩
      rw [effect_gr_framesOk, effect_ran_framesOk, hw1f]
      exact hok
    · rw [run_body_success_char env s _ w1 out sp hwr1 hrun hsol]
      constructor
      · rw [effect_gr_framesOk, render_framesOk, effect_ran_framesOk, hw1f, hok,
            effect_ran_lastRun]
        simp [frameMatches_success]
      · intro _
        rw [effect_gr_lastRun, render_lastRun, effect_ran_lastRun]
        refine ⟨rfl, ?_⟩
        cases sp <;> simp [doneStatusFor]

theorem handle_progress_inv (env : Env) (s : WatchState) (w : World)
    (prog : ExercisesProgress) (hok : w.framesOk = true)
    (hst : prog = .CurrentPending → stateOk s w.lastRun) :
    (handle_progress env s w prog).2.1.framesOk = true
    ∧ ((handle_progress env s w prog).2.2 = .ok true →
        stateOk (handle_progress env s w prog).1 (handle_progress env s w prog).2.1.lastRun) := by
  cases prog with
  | CurrentPending => exact ⟨hok, fun _ => hst rfl⟩
  | AllDone =>
    refine ⟨hok, fun hc => ?_⟩
    injection hc with hb
    cases hb
  | NewPending =>
    rcases he : run_current_exercise env s w with ⟨s1, w1, r1⟩
    have hinv := run_inv env s w hok
    rw [he] at hinv
    cases r1 with
    | error e =>
      have hred : handle_progress env s w .NewPending = (s1, w1, .error e) := by
        unfold handle_progress
        rw [he]
      rw [hred]
      exact ⟨hinv.1, fun hc => absurd hc (by simp)⟩
    | ok u =>
      have hred : handle_progress env s w .NewPending = (s1, w1, .ok true) := by
        unfold handle_progress
        rw [he]
      rw [hred]
      exact ⟨hinv.1, fun _ => hinv.2 rfl⟩

theorem noteWritten_framesOk (u : World) (e : OutEvent) :
    (u.noteWritten e).framesOk = u.framesOk := rfl

theorem noteWritten_lastRun (u : World) (e : OutEvent) :
    (u.noteWritten e).lastRun = u.lastRun := rfl

theorem check_all_inv (env : Env) (s : WatchState) (w : World) :
    (check_all_exercises env s w).2.1.framesOk = w.framesOk
    ∧ (check_all_exercises env s w).2.1.lastRun = w.lastRun
    ∧ (∀ prog, (check_all_exercises env s w).2.2 = .ok prog →
        prog ≠ .CurrentPending) := by
  unfold check_all_exercises
  rcases hw1 : w.wr (.text "\n") with e | w1
  · exact ⟨rfl, rfl, fun prog hc => absurd hc (by simp)⟩
  have hf1 := wr_framesOk hw1
  have hl1 := wr_lastRun hw1
  rcases hca : env.checkAllExercises s.app_state with e | ⟨res, a⟩
  · exact ⟨hf1, hl1, fun prog hc => absurd hc (by simp)⟩
  dsimp only
  cases res with
  | some first_fail =>
    dsimp only
    by_cases hd : a.currentExercise.done = true
    · rw [if_pos hd]
      rcases hsi : env.setCurrentIndErr with _ | e
      · refine ⟨hf1, hl1, fun prog hc => ?_⟩
        injection hc with hp
        rw [← hp]
        simp
      · exact ⟨hf1, hl1, fun prog hc => absurd hc (by simp)⟩
    · rw [if_neg hd]
      refine ⟨hf1, hl1, fun prog hc => ?_⟩
      injection hc with hp
      rw [← hp]
      simp
  | none =>
    dsimp only
    rcases hw2 : (w1.noteWritten OutEvent.checkAllOut).wr .finalMsg with e | w2
    · exact ⟨hf1, hl1, fun prog hc => absurd hc (by simp)⟩
    have hf2 : w2.framesOk = w.framesOk := by
      rw [wr_framesOk hw2, noteWritten_framesOk, hf1]
    have hl2 : w2.lastRun = w.lastRun := by
      rw [wr_lastRun hw2, noteWritten_lastRun, hl1]
    refine ⟨hf2, hl2, fun prog hc => ?_⟩
    injection hc with hp
    rw [← hp]
    simp

theorem show_hint_inv (s : WatchState) (w : World) (hok : w.framesOk = true)
    (hst : stateOk s w.lastRun) :
    (show_hint s w).2.1.framesOk = true
    ∧ ((show_hint s w).2.2 = .ok () →
        stateOk (show_hint s w).1 (show_hint s w).2.1.lastRun) := by
  by_cases hs : s.show_hint = true
  · have hred : show_hint s w = (s, w, .ok ()) := by simp [show_hint, hs]
    rw [hred]
    exact ⟨hok, fun _ => hst⟩
  · have hs' : s.show_hint = false := by revert hs; cases s.show_hint <;> simp
    have hred : show_hint s w =
        ({ s with show_hint := true }, (render { s with show_hint := true } w).1,
          (render { s with show_hint := true } w).2) := by
      simp [show_hint, hs']
    rw [hred]
    have hfm : frameMatches w.lastRun ({ s with show_hint := true }).done_status
        ({ s with show_hint := true }).app_state.current_exercise_ind = true :=
      stateOk_frameMatches hst
    constructor
    · rw [render_framesOk, hok, hfm]
      rfl
    · intro _
      rw [render_lastRun]
      exact hst

theorem update_width_inv (s : WatchState) (w : World) (width : Nat)
    (hok : w.framesOk = true) (hst : stateOk s w.lastRun) :
    (update_term_width s w width).2.1.framesOk = true
    ∧ ((update_term_width s w width).2.2 = .ok () →
        stateOk (update_term_width s w width).1 (update_term_width s w width).2.1.lastRun) := by
  by_cases hc : s.term_width = width
  · have hred : update_term_width s w width = (s, w, .ok ()) := by
      simp [update_term_width, hc]
    rw [hred]
    exact ⟨hok, fun _ => hst⟩
  · have hred : update_term_width s w width =
        ({ s with term_width := width }, (render { s with term_width := width } w).1,
          (render { s with term_width := width } w).2) := by
      simp [update_term_width, hc]
    rw [hred]
    have hfm : frameMatches w.lastRun ({ s with term_width := width }).done_status
        ({ s with term_width := width }).app_state.current_exercise_ind = true :=
      stateOk_frameMatches hst
    constructor
    · rw [render_framesOk, hok, hfm]
      rfl
    · intro _
      rw [render_lastRun]
      exact hst

theorem reset_loop_inv (env : Env) (s : WatchState) (w : World) (l : List Nat)
    (hg2 : ∀ a a2, env.resetCurrentExercise a = .ok a2 →
      a2.current_exercise_ind = a.current_exercise_ind)
    (hok : w.framesOk = true) (hst : stateOk s w.lastRun) :
    (reset_loop env s w l).2.1.framesOk = true
    ∧ ((reset_loop env s w l).2.2 = .ok () →
        stateOk (reset_loop env s w l).1 (reset_loop env s w l).2.1.lastRun) := by
  induction l with
  | nil => exact ⟨hok, fun hc => absurd hc (by simp [reset_loop])⟩
  | cons b rest ih =>
    unfold reset_loop
    split
    · rcases hr : env.resetCurrentExercise s.app_state with e | a
      · exact ⟨hok, fun hc => absurd hc (by simp)⟩
      dsimp only
      have hst1 : stateOk { s with app_state := a }
          (w.effect (.fileReset s.app_state.current_exercise_ind)).lastRun := by
        rw [effect_fr_lastRun]
        cases hlr : w.lastRun with
        | none =>
          rw [hlr] at hst
          exact hst
        | some p =>
          rcases p with ⟨i, success⟩
          rw [hlr] at hst
          exact ⟨(hg2 _ _ hr).trans hst.1, hst.2⟩
      have hok1 : (w.effect (.fileReset s.app_state.current_exercise_ind)).framesOk = true := by
        rw [effect_fr_framesOk]
        exact hok
      split
      · exact run_inv env { s with app_state := a }
          (w.effect (.fileReset s.app_state.current_exercise_ind)) hok1
          |>.1 |> fun h1 => ⟨h1, fun hc => (run_inv env { s with app_state := a }
            (w.effect (.fileReset s.app_state.current_exercise_ind)) hok1).2 hc⟩
      · exact ⟨hok1, fun _ => hst1⟩
    · split
      · rcases hrd : render s w with ⟨w2, r2⟩
        have hf2 : w2.framesOk = true := by
          have h := render_framesOk s w
          rw [hrd] at h
          rw [h, hok, stateOk_frameMatches hst]
          rfl
        have hl2 : w2.lastRun = w.lastRun := by
          have h := render_lastRun s w
          rw [hrd] at h
          exact h
        cases r2 with
        | error e => exact ⟨hf2, fun hc => absurd hc (by simp)⟩
        | ok u =>
          refine ⟨hf2, fun _ => ?_⟩
          rw [hl2]
          exact hst
      · exact ih

theorem wrs_framesOk (es : List OutEvent) (w : World) :
    (w.wrs es).1.framesOk = w.framesOk :=
  congrArg (fun t => t.2.2.1) (wrs_monOf es w)

theorem wrs_lastRun (es : List OutEvent) (w : World) :
    (w.wrs es).1.lastRun = w.lastRun :=
  congrArg (fun t => t.2.1) (wrs_monOf es w)

theorem reset_exercise_inv (env : Env) (s : WatchState) (w : World)
    (hg2 : ∀ a a2, env.resetCurrentExercise a = .ok a2 →
      a2.current_exercise_ind = a.current_exercise_ind)
    (hok : w.framesOk = true) (hst : stateOk s w.lastRun) :
    (reset_exercise env s w).2.1.framesOk = true
    ∧ ((reset_exercise env s w).2.2 = .ok () →
        stateOk (reset_exercise env s w).1 (reset_exercise env s w).2.1.lastRun) := by
  unfold reset_exercise
  split
  · rename_i w1 e heq
    have h1 : (w.wrs [.clear, .text "Resetting will undo all your changes to the file ",
        .text s.app_state.currentExercise.path, .text "\nReset (y/n)? ", .flush]).1 = w1 := by
      rw [heq]
    refine ⟨?_, fun hc => absurd hc (by simp)⟩
    rw [← h1, wrs_framesOk]
    exact hok
  rename_i w1 u heq
  have h1 : (w.wrs [.clear, .text "Resetting will undo all your changes to the file ",
      .text s.app_state.currentExercise.path, .text "\nReset (y/n)? ", .flush]).1 = w1 := by
    rw [heq]
  have hf1 : w1.framesOk = true := by
    rw [← h1, wrs_framesOk]
    exact hok
  have hl1 : w1.lastRun = w.lastRun := by
    rw [← h1, wrs_lastRun]
  have hst1 : stateOk s w1.lastRun := by
    rw [hl1]
    exact hst
  have hinv := reset_loop_inv env s w1 env.stdin hg2 hf1 hst1
  split
  · rename_i s2 w2 e heq2
    rw [heq2] at hinv
    exact ⟨hinv.1, fun hc => absurd hc (by simp)⟩
  · rename_i s2 w2 u2 heq2
    rw [heq2] at hinv
    split
    · exact ⟨hinv.1, fun hc => absurd hc (by simp)⟩
    · refine ⟨?_, fun _ => ?_⟩
      · rw [effect_us_framesOk]
        exact hinv.1
      · rw [effect_us_lastRun]
        exact hinv.2 rfl

theorem handle_event_inv (env : Env) (s : WatchState) (w : World) (ev : WatchEvent)
    (hgood : EnvGood env) (hok : w.framesOk = true) (hst : stateOk s w.lastRun) :
    (handle_event env s w ev).2.1.framesOk = true
    ∧ ((handle_event env s w ev).2.2 = .ok true →
        stateOk (handle_event env s w ev).1 (handle_event env s w ev).2.1.lastRun) := by
  cases ev with
  | runCurrent =>
    rcases he : run_current_exercise env s w with ⟨s1, w1, r1⟩
    have hinv := run_inv env s w hok
    rw [he] at hinv
    unfold handle_event
    dsimp only
    rw [he]
    cases r1 with
    | error e => exact ⟨hinv.1, fun hc => absurd hc (by simp)⟩
    | ok u => exact ⟨hinv.1, fun _ => hinv.2 rfl⟩
  | fileChange ind =>
    unfold handle_event
    dsimp only
    by_cases hi : s.app_state.current_exercise_ind ≠ ind
    · have hred : handle_file_change env s w ind = (s, w, .ok ()) := by
        simp [handle_file_change, hi]
      rw [hred]
      exact ⟨hok, fun _ => hst⟩
    · have hred : handle_file_change env s w ind = run_current_exercise env s w := by
        simp only [handle_file_change, if_neg hi]
      rw [hred]
      rcases he : run_current_exercise env s w with ⟨s1, w1, r1⟩
      have hinv := run_inv env s w hok
      rw [he] at hinv
      cases r1 with
      | error e => exact ⟨hinv.1, fun hc => absurd hc (by simp)⟩
      | ok u => exact ⟨hinv.1, fun _ => hinv.2 rfl⟩
  | hint =>
    rcases he : show_hint s w with ⟨s1, w1, r1⟩
    have hinv := show_hint_inv s w hok hst
    rw [he] at hinv
    unfold handle_event
    dsimp only
    rw [he]
    cases r1 with
    | error e => exact ⟨hinv.1, fun hc => absurd hc (by simp)⟩
    | ok u => exact ⟨hinv.1, fun _ => hinv.2 (by rfl)⟩
  | resize width =>
    rcases he : update_term_width s w width with ⟨s1, w1, r1⟩
    have hinv := update_width_inv s w width hok hst
    rw [he] at hinv
    unfold handle_event
    dsimp only
    rw [he]
    cases r1 with
    | error e => exact ⟨hinv.1, fun hc => absurd hc (by simp)⟩
    | ok u => exact ⟨hinv.1, fun _ => hinv.2 (by rfl)⟩
  | resetEv =>
    rcases he : reset_exercise env s w with ⟨s1, w1, r1⟩
    have hinv := reset_exercise_inv env s w hgood.2 hok hst
    rw [he] at hinv
    unfold handle_event
    dsimp only
    rw [he]
    cases r1 with
    | error e => exact ⟨hinv.1, fun hc => absurd hc (by simp)⟩
    | ok u => exact ⟨hinv.1, fun _ => hinv.2 (by rfl)⟩
  | nextEx =>
    unfold handle_event
    dsimp only
    by_cases hp : s.done_status = DoneStatus.Pending
    · have hred : next_exercise env s w = (s, w, .ok .CurrentPending) := by
        simp [next_exercise, hp]
      rw [hred]
      exact handle_progress_inv env s w .CurrentPending hok (fun _ => hst)
    · rcases hd : env.doneCurrentExercise s.app_state with e | ⟨prog, a⟩
      · have hred : next_exercise env s w = (s, w, .error e) := by
          simp [next_exercise, hp, hd]
        rw [hred]
        exact ⟨hok, fun hc => absurd hc (by simp)⟩
      · have hred : next_exercise env s w = ({ s with app_state := a }, w, .ok prog) := by
          simp [next_exercise, hp, hd]
        rw [hred]
        have hne : prog ≠ .CurrentPending := hgood.1 _ _ _ hd
        exact handle_progress_inv env { s with app_state := a } w prog hok
          (fun hc => absurd hc hne)
  | checkAll =>
    unfold handle_event
    dsimp only
    rcases he : check_all_exercises env s w with ⟨s1, w1, r1⟩
    have hinv := check_all_inv env s w
    rw [he] at hinv
    cases r1 with
    | error e => exact ⟨by rw [hinv.1]; exact hok, fun hc => absurd hc (by simp)⟩
    | ok prog =>
      have hne : prog ≠ .CurrentPending := hinv.2.2 prog rfl
      exact handle_progress_inv env s1 w1 prog (by rw [hinv.1]; exact hok)
        (fun hc => absurd hc hne)

/-- C2: over any watch session, the done status shown by a render is never
stale: every render frame in the trace displays the current exercise of the
most recent finished run with a status that is `Pending` exactly when that run
failed. The status is recomputed synchronously inside the run before the
render it triggers, and every operation that changes the current exercise —
including check-all switching to the first failing exercise and advancing to
the next exercise — reports a progress signal that makes the outer loop
re-run (and hence recompute and re-render) before the next frame, so
`framesOk` stays true for the whole session. -/
theorem run_events_frames (evs : List (Env × WatchEvent)) (s : WatchState) (w : World)
    (hgood : ∀ p ∈ evs, EnvGood p.1)
    (hok : w.framesOk = true) (hst : stateOk s w.lastRun) :
    (run_events evs s w).2.1.framesOk = true := by
  induction evs generalizing s w with
  | nil => exact hok
  | cons p rest ih =>
    rcases p with ⟨env, ev⟩
    rcases he : handle_event env s w ev with ⟨s1, w1, r1⟩
    have hinv := handle_event_inv env s w ev (hgood (env, ev) (by simp)) hok hst
    rw [he] at hinv
    cases r1 with
    | error e =>
      have hred : run_events ((env, ev) :: rest) s w = (s1, w1, .error e) := by
        conv_lhs => unfold run_events
        rw [he]
      rw [hred]
      exact hinv.1
    | ok b =>
      cases b with
      | false =>
        have hred : run_events ((env, ev) :: rest) s w = (s1, w1, .ok false) := by
          conv_lhs => unfold run_events
          rw [he]
        rw [hred]
        exact hinv.1
      | true =>
        have hred : run_events ((env, ev) :: rest) s w = run_events rest s1 w1 := by
          conv_lhs => unfold run_events
          rw [he]
        rw [hred]
        exact ih s1 w1 (fun q hq => hgood q (by simp [hq])) hinv.1 (hinv.2 rfl)

/-- Witness for C2: a concrete session — run, toggle hint, check-all with a
failing exercise (switching the displayed exercise), then a resize — keeps
every rendered frame consistent. -/
theorem run_events_frames_witness :
    (run_events
      [(env0, .runCurrent), (env0, .hint),
       ({ env0 with checkAllExercises := fun b => .ok (some 1, b) }, .checkAll),
       (env0, .resize 100)] s0 w0).2.1.framesOk = true := by
  apply run_events_frames
  · intro p hp
    simp at hp
    have hg : ∀ q : Env, (∀ a, q.doneCurrentExercise a = .ok (.AllDone, a)) →
        (∀ a a2, q.resetCurrentExercise a = .ok a2 →
          a2.current_exercise_ind = a.current_exercise_ind) → EnvGood q := by
      intro q h1 h2
      refine ⟨?_, h2⟩
      intro a pr b hab
      rw [h1 a] at hab
      injection hab with hpair
      injection hpair with hp1 hp2
      rw [← hp1]
      simp
    rcases hp with h | h | h | h <;> rw [h] <;>
      exact hg _ (fun a => rfl) (fun a a2 ha => by injection ha with h2; rw [← h2])
  · rfl
  · rfl
